import Mathlib

/-
Verification of the `shadowcast` recursive shadowcasting library.

The definitions below are a shallow embedding of `src/shadowcast.rs` and
`src/shadowcast_octants.rs`.  The generic `Visibility`/`Opacity` numeric
parameters of the Rust code are instantiated with `Int` (the guarded
subtraction of the algorithm keeps every value that the `u8` instantiation
would compute identical to the `Int` computation), Rust's truncating `/` on
`i32` is `Int.tdiv`, and the sink callback is modelled by returning the list
of sink invocations in call order.  `DirectionBitmap` (from the external
`direction` crate) is modelled as a record of eight booleans, one per compass
direction, with pointwise union and intersection.
-/

set_option linter.unusedVariables false

namespace Shadowcast

/-- A 2d grid coordinate; `coord_2d::Coord` with `i32` components. -/
structure Coord where
  x : Int
  y : Int
deriving DecidableEq, Repr

/-- Componentwise subtraction, `Coord - Coord` in `coord_2d`. -/
def Coord.sub (a b : Coord) : Coord :=
  ⟨a.x - b.x, a.y - b.y⟩

/-- A set of the eight compass directions (`direction::DirectionBitmap`). -/
structure DirectionBitmap where
  north : Bool
  east : Bool
  south : Bool
  west : Bool
  northEast : Bool
  southEast : Bool
  southWest : Bool
  northWest : Bool
deriving DecidableEq, Repr

namespace DirectionBitmap

def empty : DirectionBitmap := ⟨false, false, false, false, false, false, false, false⟩

def all : DirectionBitmap := ⟨true, true, true, true, true, true, true, true⟩

/-- The four cardinal directions N/E/S/W. -/
def allCardinal : DirectionBitmap := ⟨true, true, true, true, false, false, false, false⟩

def northB : DirectionBitmap := ⟨true, false, false, false, false, false, false, false⟩
def eastB : DirectionBitmap := ⟨false, true, false, false, false, false, false, false⟩
def southB : DirectionBitmap := ⟨false, false, true, false, false, false, false, false⟩
def westB : DirectionBitmap := ⟨false, false, false, true, false, false, false, false⟩
def northEastB : DirectionBitmap := ⟨false, false, false, false, true, false, false, false⟩
def southEastB : DirectionBitmap := ⟨false, false, false, false, false, true, false, false⟩
def southWestB : DirectionBitmap := ⟨false, false, false, false, false, false, true, false⟩
def northWestB : DirectionBitmap := ⟨false, false, false, false, false, false, false, true⟩

/-- Union of two bitmaps (`|` in the `direction` crate). -/
def or (a b : DirectionBitmap) : DirectionBitmap :=
  ⟨a.north || b.north, a.east || b.east, a.south || b.south, a.west || b.west,
   a.northEast || b.northEast, a.southEast || b.southEast,
   a.southWest || b.southWest, a.northWest || b.northWest⟩

/-- Intersection of two bitmaps (`&` in the `direction` crate). -/
def and (a b : DirectionBitmap) : DirectionBitmap :=
  ⟨a.north && b.north, a.east && b.east, a.south && b.south, a.west && b.west,
   a.northEast && b.northEast, a.southEast && b.southEast,
   a.southWest && b.southWest, a.northWest && b.northWest⟩

def isEmpty (a : DirectionBitmap) : Bool := a == empty

def isFull (a : DirectionBitmap) : Bool := a == all

end DirectionBitmap

/-- An angular gradient `lateral/depth` in half-cell units
(`Gradient` in `shadowcast.rs`). -/
structure Gradient where
  lateral : Int
  depth : Int
deriving DecidableEq, Repr

/-- `PartialEq for Gradient`: cross-multiplication equality. -/
def gradEq (a b : Gradient) : Bool :=
  a.lateral * b.depth == a.depth * b.lateral

/-- `ScanParams` of `shadowcast.rs`: an angular interval at a given depth
carrying its remaining visibility budget. -/
structure ScanParams where
  minGradient : Gradient
  maxGradient : Gradient
  minInclusive : Bool
  depth : Int
  visibility : Int
deriving DecidableEq, Repr

/-- `ScanParams::octant_base`: the full-octant interval at depth 1. -/
def ScanParams.octantBase (visibility : Int) : ScanParams :=
  ⟨⟨0, 1⟩, ⟨1, 1⟩, true, 1, visibility⟩

/-- `StaticParams` of `shadowcast.rs`; the input grid is the function
`opacity`, the vision distance is the predicate `inRange`. -/
structure StaticParams where
  centre : Coord
  inRange : Coord → Bool
  opacity : Coord → Int
  width : Int
  height : Int
  initialVisibility : Int

/-- `CornerInfo` of `shadowcast.rs`. -/
structure CornerInfo where
  bitmap : DirectionBitmap
  coord : Coord
  visibility : Int
deriving DecidableEq, Repr

/-- One sink invocation `f(coord, direction_bitmap, visibility)`. -/
structure Emit where
  coord : Coord
  bitmap : DirectionBitmap
  visibility : Int
deriving DecidableEq, Repr

/-- The `Octant` trait of `shadowcast_octants.rs`, as a record. -/
structure Octant where
  depthIndex : Coord → Int → Option Int
  makeCoord : Coord → Int → Int → Coord
  lateralMax : Coord → Int
  facingBitmap : DirectionBitmap
  acrossBitmap : DirectionBitmap
  facingCornerBitmap : DirectionBitmap
  shouldSee : Int → Bool

def TopLeft : Octant where
  depthIndex := fun centre depth =>
    if 0 ≤ centre.y - depth then some (centre.y - depth) else none
  makeCoord := fun centre lateral depthIndex => ⟨centre.x - lateral, depthIndex⟩
  lateralMax := fun centre => centre.x
  facingBitmap := DirectionBitmap.southB
  acrossBitmap := DirectionBitmap.eastB
  facingCornerBitmap := DirectionBitmap.southEastB
  shouldSee := fun lateral => lateral != 0

def LeftTop : Octant where
  depthIndex := fun centre depth =>
    if 0 ≤ centre.x - depth then some (centre.x - depth) else none
  makeCoord := fun centre lateral depthIndex => ⟨depthIndex, centre.y - lateral⟩
  lateralMax := fun centre => centre.y
  facingBitmap := DirectionBitmap.eastB
  acrossBitmap := DirectionBitmap.southB
  facingCornerBitmap := DirectionBitmap.southEastB
  shouldSee := fun _ => true

def TopRight (width : Int) : Octant where
  depthIndex := fun centre depth =>
    if 0 ≤ centre.y - depth then some (centre.y - depth) else none
  makeCoord := fun centre lateral depthIndex => ⟨centre.x + lateral, depthIndex⟩
  lateralMax := fun centre => width - centre.x - 1
  facingBitmap := DirectionBitmap.southB
  acrossBitmap := DirectionBitmap.westB
  facingCornerBitmap := DirectionBitmap.southWestB
  shouldSee := fun _ => true

def RightTop (width : Int) : Octant where
  depthIndex := fun centre depth =>
    if centre.x + depth < width then some (centre.x + depth) else none
  makeCoord := fun centre lateral depthIndex => ⟨depthIndex, centre.y - lateral⟩
  lateralMax := fun centre => centre.y
  facingBitmap := DirectionBitmap.westB
  acrossBitmap := DirectionBitmap.southB
  facingCornerBitmap := DirectionBitmap.southWestB
  shouldSee := fun lateral => lateral != 0

def BottomLeft (height : Int) : Octant where
  depthIndex := fun centre depth =>
    if centre.y + depth < height then some (centre.y + depth) else none
  makeCoord := fun centre lateral depthIndex => ⟨centre.x - lateral, depthIndex⟩
  lateralMax := fun centre => centre.x
  facingBitmap := DirectionBitmap.northB
  acrossBitmap := DirectionBitmap.eastB
  facingCornerBitmap := DirectionBitmap.northEastB
  shouldSee := fun _ => true

def LeftBottom (height : Int) : Octant where
  depthIndex := fun centre depth =>
    if 0 ≤ centre.x - depth then some (centre.x - depth) else none
  makeCoord := fun centre lateral depthIndex => ⟨depthIndex, centre.y + lateral⟩
  lateralMax := fun centre => height - centre.y - 1
  facingBitmap := DirectionBitmap.eastB
  acrossBitmap := DirectionBitmap.northB
  facingCornerBitmap := DirectionBitmap.northEastB
  shouldSee := fun lateral => lateral != 0

def BottomRight (width height : Int) : Octant where
  depthIndex := fun centre depth =>
    if centre.y + depth < height then some (centre.y + depth) else none
  makeCoord := fun centre lateral depthIndex => ⟨centre.x + lateral, depthIndex⟩
  lateralMax := fun centre => width - centre.x - 1
  facingBitmap := DirectionBitmap.northB
  acrossBitmap := DirectionBitmap.westB
  facingCornerBitmap := DirectionBitmap.northWestB
  shouldSee := fun lateral => lateral != 0

def RightBottom (width height : Int) : Octant where
  depthIndex := fun centre depth =>
    if centre.x + depth < width then some (centre.x + depth) else none
  makeCoord := fun centre lateral depthIndex => ⟨depthIndex, centre.y + lateral⟩
  lateralMax := fun centre => height - centre.y - 1
  facingBitmap := DirectionBitmap.westB
  acrossBitmap := DirectionBitmap.northB
  facingCornerBitmap := DirectionBitmap.northWestB
  shouldSee := fun _ => true

/-- The three canonical vision distances. `Circle::in_range` compares the
squared euclidean distance with `distance * distance`. -/
def circleInRange (distance : Int) (delta : Coord) : Bool :=
  delta.x * delta.x + delta.y * delta.y ≤ distance * distance

def squareInRange (distance : Int) (delta : Coord) : Bool :=
  max delta.x.natAbs delta.y.natAbs ≤ distance.toNat

def diamondInRange (distance : Int) (delta : Coord) : Bool :=
  delta.x.natAbs + delta.y.natAbs ≤ distance.toNat

/-- Step 5 of the scan kernel: `if visibility > opacity { (visibility -
opacity, false) } else { (Zero::zero(), true) }`. -/
def stepVisibility (visibility opacity : Int) : Int × Bool :=
  if opacity < visibility then (visibility - opacity, false) else (0, true)

/-- `lateral_min` of `scan` (the `effective_gradient_depth` is `depth * 2`).
Rust's truncating division on `i32` is `Int.tdiv`. -/
def scanLateralMin (minGradient : Gradient) (minInclusive : Bool) (depth : Int) : Int :=
  Int.tdiv (minGradient.depth + minGradient.lateral * (depth * 2))
      (minGradient.depth * 2) +
    (if minInclusive then 0 else 1)

/-- `lateral_max` of `scan` before the clamp to `octant.lateral_max`. -/
def scanLateralMaxRaw (maxGradient : Gradient) (depth : Int) : Int :=
  Int.tdiv (maxGradient.depth + maxGradient.lateral * (depth * 2) - 1)
    (maxGradient.depth * 2)

/-- The `(lateral_min, lateral_max)` pair computed by `scan`, with
`lateral_max` clamped to `octant.lateral_max(centre)`. -/
def scanBounds (octant : Octant) (centre : Coord) (params : ScanParams) : Int × Int :=
  (scanLateralMin params.minGradient params.minInclusive params.depth,
   min (scanLateralMaxRaw params.maxGradient params.depth) (octant.lateralMax centre))

/-- Result of one iteration of the lateral loop of `scan`. -/
structure CellResult where
  pushes : List ScanParams
  emit : List Emit
  corner : Option CornerInfo
  minGradient : Gradient
  minInclusive : Bool
  curVisibility : Int
  curOpaque : Bool

/-- Step 7 of the scan kernel (the "handle changes in opacity" block of
`scan`): when this is not the first cell of the strip and the visibility
changed, push the pre-transition child interval (unless the previous cell
was opaque), move `min_gradient` to the transition gradient, clear
`min_inclusive`, and light the across edge.  Returns
`(pushes, min_gradient, min_inclusive, direction_bitmap)`. -/
def transitionStep (acrossBitmap : DirectionBitmap)
    (depth lateralMin lateralIndex : Int)
    (minGradient : Gradient) (minInclusive : Bool)
    (prevVisibility : Int) (prevOpaque : Bool) (curVisibility : Int) :
    List ScanParams × Gradient × Bool × DirectionBitmap :=
  if lateralIndex != lateralMin && curVisibility != prevVisibility then
    let gradientDepth :=
      if curVisibility < prevVisibility then depth * 2 + 1 else depth * 2 - 1
    let gradient : Gradient := ⟨lateralIndex * 2 - 1, gradientDepth⟩
    let pushes : List ScanParams :=
      if !prevOpaque then
        [⟨minGradient, gradient, minInclusive, depth + 1, prevVisibility⟩]
      else []
    (pushes, gradient, false, acrossBitmap)
  else ([], minGradient, minInclusive, DirectionBitmap.empty)

/-- The body of one iteration of the lateral loop of `scan`
(`shadowcast.rs` lines 236..334), for the cell at `lateralIndex`.  `coord`,
`opacity` and `inRange` are the values the loop body reads for this cell;
the returned `pushes` are the `next.push` calls of this iteration in order,
`emit` is the sink invocation (if any), `corner` the early `return` value
(if any), and the remaining fields are the updated loop variables. -/
def scanCell (octant : Octant) (maxGradient : Gradient)
    (depth lateralMin lateralMax visibility : Int)
    (minGradient : Gradient) (minInclusive : Bool)
    (prevVisibility : Int) (prevOpaque : Bool)
    (lateralIndex : Int) (coord : Coord) (opacity : Int) (inRange : Bool) :
    CellResult :=
  let frontGradientDepth := depth * 2 - 1
  let gradientLateral := lateralIndex * 2 - 1
  let vo := stepVisibility visibility opacity
  let curVisibility := vo.1
  let curOpaque := vo.2
  -- handle changes in opacity
  let t := transitionStep octant.acrossBitmap depth lateralMin lateralIndex
    minGradient minInclusive prevVisibility prevOpaque curVisibility
  let pushes1 := t.1
  let minGradient := t.2.1
  let minInclusive := t.2.2.1
  let bitmap1 := t.2.2.2
  let bitmap :=
    if curOpaque then
      if maxGradient.lateral * frontGradientDepth > gradientLateral * maxGradient.depth then
        bitmap1.or octant.facingBitmap
      else if bitmap1.isEmpty then bitmap1.or octant.facingCornerBitmap
      else bitmap1
    else bitmap1.or DirectionBitmap.all
  -- handle final cell
  let pushes2 : List ScanParams :=
    if lateralIndex == lateralMax then
      if !curOpaque && !gradEq minGradient maxGradient then
        [⟨minGradient, maxGradient, minInclusive, depth + 1, curVisibility⟩]
      else []
    else []
  -- the early `return Some(CornerInfo ...)` of the source suppresses the
  -- sink invocation for the cell, hence the shared `isCorner` guard
  let isCorner := lateralIndex == lateralMax && (inRange && lateralIndex == depth)
  { pushes := pushes1 ++ pushes2
    emit :=
      if isCorner then []
      else if inRange && octant.shouldSee lateralIndex then [⟨coord, bitmap, visibility⟩]
      else []
    corner := if isCorner then some ⟨bitmap, coord, visibility⟩ else none
    minGradient := minGradient
    minInclusive := minInclusive
    curVisibility := curVisibility
    curOpaque := curOpaque }

/-- The `break` test of the lateral loop: `coord.x < 0 || coord.x >= width
|| coord.y < 0 || coord.y >= height`. -/
def outOfBounds (sp : StaticParams) (coord : Coord) : Prop :=
  coord.x < 0 ∨ sp.width ≤ coord.x ∨ coord.y < 0 ∨ sp.height ≤ coord.y

instance (sp : StaticParams) (coord : Coord) : Decidable (outOfBounds sp coord) := by
  unfold outOfBounds; infer_instance

/-- One loop iteration of `scan` with the cell's `coord`, `opacity` and
`in_range` read from the static parameters, as the loop body does. -/
def scanLoopCell (octant : Octant) (sp : StaticParams) (maxGradient : Gradient)
    (depth depthIndex lateralMin lateralMax visibility lateralIndex : Int)
    (minGradient : Gradient) (minInclusive : Bool)
    (prevVisibility : Int) (prevOpaque : Bool) : CellResult :=
  scanCell octant maxGradient depth lateralMin lateralMax visibility
    minGradient minInclusive prevVisibility prevOpaque lateralIndex
    (octant.makeCoord sp.centre lateralIndex depthIndex)
    (sp.opacity (octant.makeCoord sp.centre lateralIndex depthIndex))
    (sp.inRange ((octant.makeCoord sp.centre lateralIndex depthIndex).sub sp.centre))

/-- Combine one iteration's result with the rest of the strip: the early
`return Some(corner)` of the source discards the rest of the loop. -/
def scanLoopStep (r : CellResult)
    (rest : List ScanParams × List Emit × Option CornerInfo) :
    List ScanParams × List Emit × Option CornerInfo :=
  match r.corner with
  | some c => (r.pushes, r.emit, some c)
  | none => (r.pushes ++ rest.1, r.emit ++ rest.2.1, rest.2.2)

/-- The lateral loop of `scan`, iterating `fuel` times starting at
`lateralIndex` (the caller passes `fuel = lateralMax + 1 - lateralMin` so the
loop covers `lateral_min..(lateral_max + 1)`).  Returns the pushed child
intervals, the sink invocations in order, and the `CornerInfo` early-return
value if any. -/
def scanLoop (octant : Octant) (sp : StaticParams) (maxGradient : Gradient)
    (depth depthIndex lateralMin lateralMax visibility : Int) :
    Nat → Int → Gradient → Bool → Int → Bool →
    List ScanParams × List Emit × Option CornerInfo
  | 0, _, _, _, _, _ => ([], [], none)
  | fuel + 1, lateralIndex, minGradient, minInclusive, prevVisibility, prevOpaque =>
    if outOfBounds sp (octant.makeCoord sp.centre lateralIndex depthIndex) then
      ([], [], none)
    else
      let r := scanLoopCell octant sp maxGradient depth depthIndex lateralMin lateralMax
        visibility lateralIndex minGradient minInclusive prevVisibility prevOpaque
      scanLoopStep r
        (scanLoop octant sp maxGradient depth depthIndex lateralMin lateralMax
          visibility fuel (lateralIndex + 1) r.minGradient r.minInclusive
          r.curVisibility r.curOpaque)

/-- `scan` of `shadowcast.rs`: scan one depth strip of one octant. -/
def scan (octant : Octant) (sp : StaticParams) (params : ScanParams) :
    List ScanParams × List Emit × Option CornerInfo :=
  match octant.depthIndex sp.centre params.depth with
  | none => ([], [], none)
  | some depthIndex =>
    let b := scanBounds octant sp.centre params
    scanLoop octant sp params.maxGradient params.depth depthIndex b.1 b.2
      params.visibility (b.2 + 1 - b.1).toNat b.1 params.minGradient params.minInclusive
      0 false

/-- The corner accumulator of `observe_octant`'s loop body:
`corner_bitmap`, `corner_coord`, `corner_visibility`. -/
structure CornerAcc where
  bitmap : DirectionBitmap
  coord : Option Coord
  visibility : Int
deriving Repr

/-- Fold a corner observation into the accumulator: union the bitmap,
record the coordinate, keep the maximum visibility. -/
def cornerFold (acc : CornerAcc) (c : CornerInfo) : CornerAcc :=
  ⟨acc.bitmap.or c.bitmap, some c.coord,
   if acc.visibility < c.visibility then c.visibility else acc.visibility⟩

/-- Drain one queue through `scan` for one octant
(the `for params in self.queue_?.drain(..)` loops of `observe_octant`),
accumulating pushed intervals, sink invocations and corner observations. -/
def runQueue (octant : Octant) (sp : StaticParams) :
    List ScanParams → CornerAcc → List ScanParams × List Emit × CornerAcc
  | [], acc => ([], [], acc)
  | p :: rest, acc =>
    let r := scan octant sp p
    let acc2 :=
      match r.2.2 with
      | none => acc
      | some c => cornerFold acc c
    let next := runQueue octant sp rest acc2
    (r.1 ++ next.1, r.2.1 ++ next.2.1, next.2.2)

/-- The corner-bitmap reconciliation of `observe_octant`: when the combined
bitmap is not full and meets the cardinal directions, mask it with
`all_cardinal`. -/
def reconcile (bm : DirectionBitmap) : DirectionBitmap :=
  if !(bm.isFull || (bm.and DirectionBitmap.allCardinal).isEmpty) then
    bm.and DirectionBitmap.allCardinal
  else bm

/-- One iteration of the `loop` in `observe_octant`: drain both queues,
then emit the reconciled corner observation if there is one.  Returns the
two next-depth queues and the sink invocations of this round in order. -/
def observeRound (octA octB : Octant) (sp : StaticParams)
    (queueA queueB : List ScanParams) :
    List ScanParams × List ScanParams × List Emit :=
  let ra := runQueue octA sp queueA ⟨DirectionBitmap.empty, none, 0⟩
  let rb := runQueue octB sp queueB ra.2.2
  let cornerEmits : List Emit :=
    match rb.2.2.coord with
    | none => []
    | some c => [⟨c, reconcile rb.2.2.bitmap, rb.2.2.visibility⟩]
  (ra.1, rb.1, ra.2.1 ++ rb.2.1 ++ cornerEmits)

/-- The depth loop of `observe_octant`, with explicit fuel: one unit of fuel
per depth round.  Returns `none` when the fuel runs out before the loop
breaks (the termination theorem shows enough fuel always exists). -/
def observeLoop (octA octB : Octant) (sp : StaticParams) :
    Nat → List ScanParams → List ScanParams → Option (List Emit)
  | 0, _, _ => none
  | fuel + 1, queueA, queueB =>
    let r := observeRound octA octB sp queueA queueB
    if r.1.isEmpty && r.2.1.isEmpty then some r.2.2
    else
      match observeLoop octA octB sp fuel r.1 r.2.1 with
      | none => none
      | some rest => some (r.2.2 ++ rest)

/-- `observe_octant`: seed both queues with the base interval and run the
depth loop. -/
def observeOctant (octA octB : Octant) (sp : StaticParams) (fuel : Nat) :
    Option (List Emit) :=
  observeLoop octA octB sp fuel
    [ScanParams.octantBase sp.initialVisibility]
    [ScanParams.octantBase sp.initialVisibility]

/-- A depth past which every octant's `depth_index` is `none`. -/
def observeBound (centre : Coord) (width height : Int) : Int :=
  max (max (centre.x + 1) (centre.y + 1)) (max (width - centre.x) (height - centre.y))

/-- A fuel bound sufficient for every octant pair: past `observeBound` every
octant's `depth_index` is `none`, so the queues must have emptied. -/
def forEachBound (centre : Coord) (width height : Int) : Nat :=
  (observeBound centre width height).toNat + 2

/-- `ShadowcastContext::for_each` with explicit fuel: emit the origin cell
with the full bitmap, then run the four octant pairs in order, concatenating
their sink invocations. -/
def forEachFuel (centre : Coord) (width height : Int) (opacity : Coord → Int)
    (inRange : Coord → Bool) (initialVisibility : Int) (fuel : Nat) :
    Option (List Emit) :=
  let sp : StaticParams := ⟨centre, inRange, opacity, width, height, initialVisibility⟩
  match observeOctant TopLeft LeftTop sp fuel,
      observeOctant (RightTop width) (TopRight width) sp fuel,
      observeOctant (LeftBottom height) (BottomLeft height) sp fuel,
      observeOctant (BottomRight width height) (RightBottom width height) sp fuel with
  | some e1, some e2, some e3, some e4 =>
    some (⟨centre, DirectionBitmap.all, initialVisibility⟩ :: (e1 ++ e2 ++ e3 ++ e4))
  | _, _, _, _ => none

/-- `ShadowcastContext::for_each` of `shadowcast.rs`. -/
def forEach (centre : Coord) (width height : Int) (opacity : Coord → Int)
    (inRange : Coord → Bool) (initialVisibility : Int) : Option (List Emit) :=
  forEachFuel centre width height opacity inRange initialVisibility
    (forEachBound centre width height)

/-- The sink invocations of `for_each`, in call order (`for_each` always
terminates, so the default never fires). -/
def forEachEmits (centre : Coord) (width height : Int) (opacity : Coord → Int)
    (inRange : Coord → Bool) (initialVisibility : Int) : List Emit :=
  (forEach centre width height opacity inRange initialVisibility).getD []

/-- The octants of the four pairs passed to `observe_octant` by `for_each`,
for a grid of the given dimensions. -/
def pairOctants (width height : Int) : List Octant :=
  [TopLeft, LeftTop, RightTop width, TopRight width,
   LeftBottom height, BottomLeft height,
   BottomRight width height, RightBottom width height]

/-- The invariant maintained by every interval the algorithm ever queues:
positive depths of both gradients, nonnegative laterals, and a max gradient
of slope at most one. -/
def goodParams (p : ScanParams) : Prop :=
  1 ≤ p.depth ∧
  0 ≤ p.minGradient.lateral ∧ 1 ≤ p.minGradient.depth ∧
  0 ≤ p.maxGradient.lateral ∧ p.maxGradient.lateral ≤ p.maxGradient.depth ∧
  1 ≤ p.maxGradient.depth

instance (p : ScanParams) : Decidable (goodParams p) := by
  unfold goodParams; infer_instance

/-! ### Structural lemmas about one loop iteration -/

theorem scanCell_pushes_eq (octant : Octant) (maxGradient : Gradient)
    (depth lateralMin lateralMax visibility : Int)
    (minGradient : Gradient) (minInclusive : Bool)
    (prevVisibility : Int) (prevOpaque : Bool)
    (lateralIndex : Int) (coord : Coord) (opacity : Int) (inRange : Bool) :
    (scanCell octant maxGradient depth lateralMin lateralMax visibility
        minGradient minInclusive prevVisibility prevOpaque lateralIndex coord
        opacity inRange).pushes =
      (transitionStep octant.acrossBitmap depth lateralMin lateralIndex
          minGradient minInclusive prevVisibility prevOpaque
          (stepVisibility visibility opacity).1).1 ++
      (if lateralIndex == lateralMax then
        if !(stepVisibility visibility opacity).2 &&
            !gradEq (transitionStep octant.acrossBitmap depth lateralMin lateralIndex
              minGradient minInclusive prevVisibility prevOpaque
              (stepVisibility visibility opacity).1).2.1 maxGradient then
          [⟨(transitionStep octant.acrossBitmap depth lateralMin lateralIndex
              minGradient minInclusive prevVisibility prevOpaque
              (stepVisibility visibility opacity).1).2.1, maxGradient,
            (transitionStep octant.acrossBitmap depth lateralMin lateralIndex
              minGradient minInclusive prevVisibility prevOpaque
              (stepVisibility visibility opacity).1).2.2.1, depth + 1,
            (stepVisibility visibility opacity).1⟩]
        else []
      else []) := rfl

theorem scanCell_state_eq (octant : Octant) (maxGradient : Gradient)
    (depth lateralMin lateralMax visibility : Int)
    (minGradient : Gradient) (minInclusive : Bool)
    (prevVisibility : Int) (prevOpaque : Bool)
    (lateralIndex : Int) (coord : Coord) (opacity : Int) (inRange : Bool) :
    (scanCell octant maxGradient depth lateralMin lateralMax visibility
        minGradient minInclusive prevVisibility prevOpaque lateralIndex coord
        opacity inRange).minGradient =
      (transitionStep octant.acrossBitmap depth lateralMin lateralIndex
          minGradient minInclusive prevVisibility prevOpaque
          (stepVisibility visibility opacity).1).2.1 ∧
    (scanCell octant maxGradient depth lateralMin lateralMax visibility
        minGradient minInclusive prevVisibility prevOpaque lateralIndex coord
        opacity inRange).minInclusive =
      (transitionStep octant.acrossBitmap depth lateralMin lateralIndex
          minGradient minInclusive prevVisibility prevOpaque
          (stepVisibility visibility opacity).1).2.2.1 ∧
    (scanCell octant maxGradient depth lateralMin lateralMax visibility
        minGradient minInclusive prevVisibility prevOpaque lateralIndex coord
        opacity inRange).curVisibility = (stepVisibility visibility opacity).1 ∧
    (scanCell octant maxGradient depth lateralMin lateralMax visibility
        minGradient minInclusive prevVisibility prevOpaque lateralIndex coord
        opacity inRange).curOpaque = (stepVisibility visibility opacity).2 :=
  ⟨rfl, rfl, rfl, rfl⟩

theorem scanCell_corner_cases (octant : Octant) (maxGradient : Gradient)
    (depth lateralMin lateralMax visibility : Int)
    (minGradient : Gradient) (minInclusive : Bool)
    (prevVisibility : Int) (prevOpaque : Bool)
    (lateralIndex : Int) (coord : Coord) (opacity : Int) (inRange : Bool) :
    ∀ c, (scanCell octant maxGradient depth lateralMin lateralMax visibility
        minGradient minInclusive prevVisibility prevOpaque lateralIndex coord
        opacity inRange).corner = some c →
      c.coord = coord ∧ c.visibility = visibility ∧ inRange = true ∧
        lateralIndex = depth ∧ lateralIndex = lateralMax := by
  intro c hc
  unfold scanCell at hc
  simp only at hc
  split at hc
  · rename_i h
    simp only [Bool.and_eq_true, beq_iff_eq] at h
    cases hc
    exact ⟨rfl, rfl, h.2.1, h.2.2, h.1⟩
  · exact absurd hc (by simp)

theorem scanCell_emit_cases (octant : Octant) (maxGradient : Gradient)
    (depth lateralMin lateralMax visibility : Int)
    (minGradient : Gradient) (minInclusive : Bool)
    (prevVisibility : Int) (prevOpaque : Bool)
    (lateralIndex : Int) (coord : Coord) (opacity : Int) (inRange : Bool) :
    ∀ e ∈ (scanCell octant maxGradient depth lateralMin lateralMax visibility
        minGradient minInclusive prevVisibility prevOpaque lateralIndex coord
        opacity inRange).emit,
      e.coord = coord ∧ e.visibility = visibility ∧ inRange = true ∧
        ¬(lateralIndex = lateralMax ∧ lateralIndex = depth) := by
  intro e he
  unfold scanCell at he
  simp only at he
  split at he
  · exact absurd he (by simp)
  · rename_i h
    split at he
    · rename_i hr
      simp only [Bool.and_eq_true] at hr
      simp only [List.mem_singleton] at he
      subst he
      refine ⟨rfl, rfl, hr.1, ?_⟩
      intro hmax
      apply h
      simp only [Bool.and_eq_true, beq_iff_eq]
      exact ⟨hmax.1, hr.1, hmax.2⟩
    · exact absurd he (by simp)

theorem stepVisibility_nonneg (v o : Int) : 0 ≤ (stepVisibility v o).1 := by
  by_cases hvo : o < v
  · simp only [stepVisibility, if_pos hvo]; omega
  · simp only [stepVisibility, if_neg hvo]; omega

theorem stepVisibility_pos (v o : Int) (h : (stepVisibility v o).2 = false) :
    0 < (stepVisibility v o).1 := by
  by_cases hvo : o < v
  · simp only [stepVisibility, if_pos hvo]; omega
  · simp only [stepVisibility, if_neg hvo] at h; simp at h

theorem transitionStep_cases (acrossBitmap : DirectionBitmap)
    (depth lateralMin lateralIndex : Int) (minGradient : Gradient)
    (minInclusive : Bool) (prevVisibility : Int) (prevOpaque : Bool)
    (curVisibility : Int) :
    transitionStep acrossBitmap depth lateralMin lateralIndex minGradient
        minInclusive prevVisibility prevOpaque curVisibility =
      ([], minGradient, minInclusive, DirectionBitmap.empty) ∨
    (lateralIndex ≠ lateralMin ∧ ∃ gd, (gd = depth * 2 + 1 ∨ gd = depth * 2 - 1) ∧
      ((prevOpaque = false ∧
        transitionStep acrossBitmap depth lateralMin lateralIndex minGradient
            minInclusive prevVisibility prevOpaque curVisibility =
          ([⟨minGradient, ⟨lateralIndex * 2 - 1, gd⟩, minInclusive, depth + 1,
              prevVisibility⟩],
            ⟨lateralIndex * 2 - 1, gd⟩, false, acrossBitmap)) ∨
       (prevOpaque = true ∧
        transitionStep acrossBitmap depth lateralMin lateralIndex minGradient
            minInclusive prevVisibility prevOpaque curVisibility =
          ([], ⟨lateralIndex * 2 - 1, gd⟩, false, acrossBitmap)))) := by
  unfold transitionStep
  split
  · rename_i h
    simp only [Bool.and_eq_true, bne_iff_ne] at h
    right
    refine ⟨h.1, ?_⟩
    by_cases hlt : curVisibility < prevVisibility
    · refine ⟨depth * 2 + 1, Or.inl rfl, ?_⟩
      cases hp : prevOpaque
      · left; exact ⟨rfl, by simp [hlt, hp]⟩
      · right; exact ⟨rfl, by simp [hlt, hp]⟩
    · refine ⟨depth * 2 - 1, Or.inr rfl, ?_⟩
      cases hp : prevOpaque
      · left; exact ⟨rfl, by simp [hlt, hp]⟩
      · right; exact ⟨rfl, by simp [hlt, hp]⟩
  · exact Or.inl rfl

/-- Every child interval pushed by one loop iteration: it is either the
pre-transition push of step 7 or the continuation push of step 9. -/
theorem scanCell_pushes_mem (octant : Octant) (maxGradient : Gradient)
    (depth lateralMin lateralMax visibility : Int)
    (minGradient : Gradient) (minInclusive : Bool)
    (prevVisibility : Int) (prevOpaque : Bool)
    (lateralIndex : Int) (coord : Coord) (opacity : Int) (inRange : Bool) :
    ∀ q ∈ (scanCell octant maxGradient depth lateralMin lateralMax visibility
        minGradient minInclusive prevVisibility prevOpaque lateralIndex coord
        opacity inRange).pushes,
      q.depth = depth + 1 ∧
      ((lateralIndex ≠ lateralMin ∧ prevOpaque = false ∧
          q.visibility = prevVisibility ∧ q.minGradient = minGradient ∧
          ∃ gd, (gd = depth * 2 + 1 ∨ gd = depth * 2 - 1) ∧
            q.maxGradient = ⟨lateralIndex * 2 - 1, gd⟩) ∨
       (lateralIndex = lateralMax ∧ (stepVisibility visibility opacity).2 = false ∧
          q.visibility = (stepVisibility visibility opacity).1 ∧
          q.maxGradient = maxGradient ∧
          (q.minGradient = minGradient ∨
            (lateralIndex ≠ lateralMin ∧
              ∃ gd, (gd = depth * 2 + 1 ∨ gd = depth * 2 - 1) ∧
                q.minGradient = ⟨lateralIndex * 2 - 1, gd⟩)))) := by
  intro q hq
  rw [scanCell_pushes_eq] at hq
  rcases List.mem_append.mp hq with hq | hq
  · -- transition push
    rcases transitionStep_cases octant.acrossBitmap depth lateralMin lateralIndex
        minGradient minInclusive prevVisibility prevOpaque
        (stepVisibility visibility opacity).1 with hc | ⟨hne, gd, hgd, hc | hc⟩
    · rw [hc] at hq; simp at hq
    · rw [hc.2] at hq
      simp only [List.mem_singleton] at hq
      subst hq
      exact ⟨rfl, Or.inl ⟨hne, hc.1, rfl, rfl, gd, hgd, rfl⟩⟩
    · rw [hc.2] at hq; simp at hq
  · -- continuation push
    split at hq
    · rename_i hlmax
      split at hq
      · rename_i hcond
        simp only [Bool.and_eq_true, Bool.not_eq_true', Bool.not_eq_true] at hcond
        simp only [List.mem_singleton] at hq
        subst hq
        refine ⟨rfl, Or.inr ⟨by simpa using hlmax, hcond.1, rfl, rfl, ?_⟩⟩
        rcases transitionStep_cases octant.acrossBitmap depth lateralMin lateralIndex
            minGradient minInclusive prevVisibility prevOpaque
            (stepVisibility visibility opacity).1 with hc | ⟨hne, gd, hgd, hc | hc⟩
        · left; rw [hc]
        · right; exact ⟨hne, gd, hgd, by rw [hc.2]⟩
        · right; exact ⟨hne, gd, hgd, by rw [hc.2]⟩
      · simp at hq
    · simp at hq

/-! ### Arithmetic facts about the lateral bounds -/

theorem scanLateralMin_nonneg (minGradient : Gradient) (minInclusive : Bool)
    (depth : Int) (hl : 0 ≤ minGradient.lateral) (hd : 1 ≤ minGradient.depth)
    (hdep : 0 ≤ depth) : 0 ≤ scanLateralMin minGradient minInclusive depth := by
  unfold scanLateralMin
  have h1 : 0 ≤ minGradient.depth + minGradient.lateral * (depth * 2) := by
    have := mul_nonneg hl (by omega : (0:Int) ≤ depth * 2)
    omega
  have h2 : 0 ≤ Int.tdiv (minGradient.depth + minGradient.lateral * (depth * 2))
      (minGradient.depth * 2) := Int.tdiv_nonneg h1 (by omega)
  split <;> omega

theorem scanLateralMaxRaw_le (maxGradient : Gradient) (depth : Int)
    (hl : 0 ≤ maxGradient.lateral) (hld : maxGradient.lateral ≤ maxGradient.depth)
    (hd : 1 ≤ maxGradient.depth) (hdep : 0 ≤ depth) :
    scanLateralMaxRaw maxGradient depth ≤ depth := by
  unfold scanLateralMaxRaw
  have h1 : 0 ≤ maxGradient.depth + maxGradient.lateral * (depth * 2) - 1 := by
    have := mul_nonneg hl (by omega : (0:Int) ≤ depth * 2)
    omega
  rw [Int.tdiv_eq_ediv h1 (by omega)]
  have h2 : (0:Int) < maxGradient.depth * 2 := by omega
  have h3 := (Int.ediv_lt_iff_lt_mul h2
    (a := maxGradient.depth + maxGradient.lateral * (depth * 2) - 1)
    (b := depth + 1)).mpr
  have h4 : maxGradient.depth + maxGradient.lateral * (depth * 2) - 1 <
      (depth + 1) * (maxGradient.depth * 2) := by
    have := mul_le_mul_of_nonneg_right hld (by omega : (0:Int) ≤ depth * 2)
    nlinarith
  have := h3 h4
  omega

/-! ### Decomposition of the loop -/

theorem scanLoopStep_pushes (r : CellResult)
    (rest : List ScanParams × List Emit × Option CornerInfo) :
    ∀ q ∈ (scanLoopStep r rest).1, q ∈ r.pushes ∨ q ∈ rest.1 := by
  intro q hq
  unfold scanLoopStep at hq
  split at hq
  · exact Or.inl hq
  · exact List.mem_append.mp hq

theorem scanLoopStep_emits (r : CellResult)
    (rest : List ScanParams × List Emit × Option CornerInfo) :
    ∀ e ∈ (scanLoopStep r rest).2.1, e ∈ r.emit ∨ e ∈ rest.2.1 := by
  intro e he
  unfold scanLoopStep at he
  split at he
  · exact Or.inl he
  · exact List.mem_append.mp he

theorem scanLoopStep_corner (r : CellResult)
    (rest : List ScanParams × List Emit × Option CornerInfo) :
    ∀ c, (scanLoopStep r rest).2.2 = some c →
      r.corner = some c ∨ (r.corner = none ∧ rest.2.2 = some c) := by
  intro c hc
  unfold scanLoopStep at hc
  split at hc
  · rename_i h
    cases hc
    exact Or.inl h
  · rename_i h
    exact Or.inr ⟨h, hc⟩

theorem scanLoop_zero (octant : Octant) (sp : StaticParams) (maxGradient : Gradient)
    (depth depthIndex lateralMin lateralMax visibility : Int)
    (lateralIndex : Int) (minGradient : Gradient) (minInclusive : Bool)
    (prevVisibility : Int) (prevOpaque : Bool) :
    scanLoop octant sp maxGradient depth depthIndex lateralMin lateralMax visibility
      0 lateralIndex minGradient minInclusive prevVisibility prevOpaque =
      ([], [], none) := rfl

theorem scanLoop_succ (octant : Octant) (sp : StaticParams) (maxGradient : Gradient)
    (depth depthIndex lateralMin lateralMax visibility : Int) (fuel : Nat)
    (lateralIndex : Int) (minGradient : Gradient) (minInclusive : Bool)
    (prevVisibility : Int) (prevOpaque : Bool) :
    scanLoop octant sp maxGradient depth depthIndex lateralMin lateralMax visibility
        (fuel + 1) lateralIndex minGradient minInclusive prevVisibility prevOpaque =
      if outOfBounds sp (octant.makeCoord sp.centre lateralIndex depthIndex) then
        ([], [], none)
      else
        scanLoopStep
          (scanLoopCell octant sp maxGradient depth depthIndex lateralMin lateralMax
            visibility lateralIndex minGradient minInclusive prevVisibility prevOpaque)
          (scanLoop octant sp maxGradient depth depthIndex lateralMin lateralMax
            visibility fuel (lateralIndex + 1)
            (scanLoopCell octant sp maxGradient depth depthIndex lateralMin lateralMax
              visibility lateralIndex minGradient minInclusive prevVisibility
              prevOpaque).minGradient
            (scanLoopCell octant sp maxGradient depth depthIndex lateralMin lateralMax
              visibility lateralIndex minGradient minInclusive prevVisibility
              prevOpaque).minInclusive
            (scanLoopCell octant sp maxGradient depth depthIndex lateralMin lateralMax
              visibility lateralIndex minGradient minInclusive prevVisibility
              prevOpaque).curVisibility
            (scanLoopCell octant sp maxGradient depth depthIndex lateralMin lateralMax
              visibility lateralIndex minGradient minInclusive prevVisibility
              prevOpaque).curOpaque) := rfl

/-! ### The pushes produced by a whole strip scan -/

/-- Master invariant lemma for the lateral loop: every pushed child interval
is well formed, lies one depth deeper, and carries a positive visibility
budget. -/
theorem scanLoop_pushes_mem (octant : Octant) (sp : StaticParams)
    (maxGradient : Gradient) (depth depthIndex lateralMin lateralMax visibility : Int)
    (hd : 1 ≤ depth) (hlMin : 0 ≤ lateralMin) (hmax : lateralMax ≤ depth)
    (hmg1 : 0 ≤ maxGradient.lateral) (hmg2 : maxGradient.lateral ≤ maxGradient.depth)
    (hmg3 : 1 ≤ maxGradient.depth) :
    ∀ fuel : Nat, ∀ lateralIndex : Int, ∀ minGradient : Gradient,
      ∀ minInclusive : Bool, ∀ prevVisibility : Int, ∀ prevOpaque : Bool,
      lateralMin ≤ lateralIndex →
      (lateralIndex + (fuel : Int) = lateralMax + 1 ∨ fuel = 0) →
      0 ≤ minGradient.lateral → 1 ≤ minGradient.depth →
      (lateralIndex ≠ lateralMin → prevOpaque = false → 0 < prevVisibility) →
      ∀ q ∈ (scanLoop octant sp maxGradient depth depthIndex lateralMin lateralMax
          visibility fuel lateralIndex minGradient minInclusive prevVisibility
          prevOpaque).1,
        goodParams q ∧ 0 < q.visibility ∧ q.depth = depth + 1 := by
  intro fuel
  induction fuel with
  | zero => intro l minG minInc pv po _ _ _ _ _ q hq; simp [scanLoop_zero] at hq
  | succ fuel ih =>
    intro l minG minInc pv po hge hfuel hminG1 hminG2 hprev q hq
    rw [scanLoop_succ] at hq
    split at hq
    · simp at hq
    · have hlle : l ≤ lateralMax := by omega
      set rc := scanLoopCell octant sp maxGradient depth depthIndex lateralMin lateralMax
        visibility l minG minInc pv po with hrc
      have hcell : ∀ q ∈ rc.pushes,
          q.depth = depth + 1 ∧
          ((l ≠ lateralMin ∧ po = false ∧ q.visibility = pv ∧ q.minGradient = minG ∧
            ∃ gd, (gd = depth * 2 + 1 ∨ gd = depth * 2 - 1) ∧
              q.maxGradient = ⟨l * 2 - 1, gd⟩) ∨
           (l = lateralMax ∧
            (stepVisibility visibility
              (sp.opacity (octant.makeCoord sp.centre l depthIndex))).2 = false ∧
            q.visibility = (stepVisibility visibility
              (sp.opacity (octant.makeCoord sp.centre l depthIndex))).1 ∧
            q.maxGradient = maxGradient ∧
            (q.minGradient = minG ∨ (l ≠ lateralMin ∧
              ∃ gd, (gd = depth * 2 + 1 ∨ gd = depth * 2 - 1) ∧
                q.minGradient = ⟨l * 2 - 1, gd⟩)))) := by
        rw [hrc]; unfold scanLoopCell; exact scanCell_pushes_mem _ _ _ _ _ _ _ _ _ _ _ _ _ _
      have hstate :
          rc.minGradient = (transitionStep octant.acrossBitmap depth lateralMin l
            minG minInc pv po (stepVisibility visibility
              (sp.opacity (octant.makeCoord sp.centre l depthIndex))).1).2.1 ∧
          rc.curVisibility = (stepVisibility visibility
            (sp.opacity (octant.makeCoord sp.centre l depthIndex))).1 ∧
          rc.curOpaque = (stepVisibility visibility
            (sp.opacity (octant.makeCoord sp.centre l depthIndex))).2 := by
        rw [hrc]; unfold scanLoopCell
        have h := scanCell_state_eq octant maxGradient depth lateralMin lateralMax
          visibility minG minInc pv po l (octant.makeCoord sp.centre l depthIndex)
          (sp.opacity (octant.makeCoord sp.centre l depthIndex))
          (sp.inRange ((octant.makeCoord sp.centre l depthIndex).sub sp.centre))
        exact ⟨h.1, h.2.2.1, h.2.2.2⟩
      have hthis : ∀ q ∈ rc.pushes, goodParams q ∧ 0 < q.visibility ∧ q.depth = depth + 1 := by
        intro q hq
        rcases hcell q hq with ⟨hdep, hcase⟩
        refine ⟨?_, ?_, hdep⟩
        · rcases hcase with ⟨hne, hpo, hv, hming, gd, hgd, hmaxg⟩ |
            ⟨hlm, hop, hv, hmaxg, hming⟩
          · refine ⟨by omega, ?_, ?_, ?_, ?_, ?_⟩
            · rw [hming]; omega
            · rw [hming]; omega
            · rw [hmaxg]; simp only; omega
            · rw [hmaxg]; simp only; omega
            · rw [hmaxg]; simp only; omega
          · refine ⟨by omega, ?_, ?_, ?_, ?_, ?_⟩
            · rcases hming with h | ⟨hne, gd, hgd, h⟩
              · rw [h]; omega
              · rw [h]; simp only; omega
            · rcases hming with h | ⟨hne, gd, hgd, h⟩
              · rw [h]; omega
              · rw [h]; simp only; omega
            · rw [hmaxg]; omega
            · rw [hmaxg]; omega
            · rw [hmaxg]; omega
        · rcases hcase with ⟨hne, hpo, hv, _⟩ | ⟨_, hop, hv, _⟩
          · rw [hv]; exact hprev hne hpo
          · rw [hv]; exact stepVisibility_pos _ _ hop
      rcases scanLoopStep_pushes _ _ q hq with hq | hq
      · exact hthis q hq
      · refine ih (l + 1) rc.minGradient rc.minInclusive rc.curVisibility rc.curOpaque
          (by omega) (by omega) ?_ ?_ ?_ q hq
        · rcases transitionStep_cases octant.acrossBitmap depth lateralMin l
              minG minInc pv po (stepVisibility visibility
                (sp.opacity (octant.makeCoord sp.centre l depthIndex))).1 with
            hc | ⟨hne, gd, hgd, hc | hc⟩
          · rw [hstate.1, hc]; exact hminG1
          · rw [hstate.1, hc.2]; simp only; omega
          · rw [hstate.1, hc.2]; simp only; omega
        · rcases transitionStep_cases octant.acrossBitmap depth lateralMin l
              minG minInc pv po (stepVisibility visibility
                (sp.opacity (octant.makeCoord sp.centre l depthIndex))).1 with
            hc | ⟨hne, gd, hgd, hc | hc⟩
          · rw [hstate.1, hc]; exact hminG2
          · rw [hstate.1, hc.2]; simp only; omega
          · rw [hstate.1, hc.2]; simp only; omega
        · intro _ hop
          rw [hstate.2.1]
          rw [hstate.2.2] at hop
          exact stepVisibility_pos _ _ hop

/-- Every sink invocation of the lateral loop is in vision range, carries
the interval's visibility unchanged, and is never the diagonal terminal
cell; the returned corner is in range, carries the interval's visibility,
and is the diagonal cell of the strip. -/
theorem scanLoop_emits_mem (octant : Octant) (sp : StaticParams)
    (maxGradient : Gradient) (depth depthIndex lateralMin lateralMax visibility : Int) :
    ∀ fuel : Nat, ∀ lateralIndex : Int, ∀ minGradient : Gradient,
      ∀ minInclusive : Bool, ∀ prevVisibility : Int, ∀ prevOpaque : Bool,
      (lateralIndex + (fuel : Int) = lateralMax + 1 ∨ fuel = 0) →
      (∀ e ∈ (scanLoop octant sp maxGradient depth depthIndex lateralMin lateralMax
          visibility fuel lateralIndex minGradient minInclusive prevVisibility
          prevOpaque).2.1,
        sp.inRange (e.coord.sub sp.centre) = true ∧ e.visibility = visibility ∧
        ∃ j, lateralIndex ≤ j ∧ j ≤ lateralMax ∧
          e.coord = octant.makeCoord sp.centre j depthIndex ∧
          ¬(j = lateralMax ∧ j = depth)) ∧
      (∀ c, (scanLoop octant sp maxGradient depth depthIndex lateralMin lateralMax
          visibility fuel lateralIndex minGradient minInclusive prevVisibility
          prevOpaque).2.2 = some c →
        sp.inRange (c.coord.sub sp.centre) = true ∧ c.visibility = visibility ∧
        c.coord = octant.makeCoord sp.centre depth depthIndex) := by
  intro fuel
  induction fuel with
  | zero =>
    intro l minG minInc pv po _
    constructor
    · intro e he; simp [scanLoop_zero] at he
    · intro c hc; simp [scanLoop_zero] at hc
  | succ fuel ih =>
    intro l minG minInc pv po hfuel
    rw [scanLoop_succ]
    split
    · constructor
      · intro e he; simp at he
      · intro c hc; simp at hc
    · set rc := scanLoopCell octant sp maxGradient depth depthIndex lateralMin lateralMax
        visibility l minG minInc pv po with hrc
      have hemit : ∀ e ∈ rc.emit,
          e.coord = octant.makeCoord sp.centre l depthIndex ∧ e.visibility = visibility ∧
          sp.inRange ((octant.makeCoord sp.centre l depthIndex).sub sp.centre) = true ∧
          ¬(l = lateralMax ∧ l = depth) := by
        rw [hrc]; unfold scanLoopCell
        intro e he
        have h := scanCell_emit_cases octant maxGradient depth lateralMin lateralMax
          visibility minG minInc pv po l (octant.makeCoord sp.centre l depthIndex)
          (sp.opacity (octant.makeCoord sp.centre l depthIndex))
          (sp.inRange ((octant.makeCoord sp.centre l depthIndex).sub sp.centre)) e he
        exact ⟨h.1, h.2.1, h.2.2.1, h.2.2.2⟩
      have hcorn : ∀ c, rc.corner = some c →
          c.coord = octant.makeCoord sp.centre l depthIndex ∧ c.visibility = visibility ∧
          sp.inRange ((octant.makeCoord sp.centre l depthIndex).sub sp.centre) = true ∧
          l = depth ∧ l = lateralMax := by
        rw [hrc]; unfold scanLoopCell
        intro c hc
        exact scanCell_corner_cases octant maxGradient depth lateralMin lateralMax
          visibility minG minInc pv po l (octant.makeCoord sp.centre l depthIndex)
          (sp.opacity (octant.makeCoord sp.centre l depthIndex))
          (sp.inRange ((octant.makeCoord sp.centre l depthIndex).sub sp.centre)) c hc
      have hrec := ih (l + 1) rc.minGradient rc.minInclusive rc.curVisibility
        rc.curOpaque (by omega)
      constructor
      · intro e he
        rcases scanLoopStep_emits _ _ e he with he | he
        · rcases hemit e he with ⟨hco, hv, hir, hnd⟩
          rw [hco]
          exact ⟨hir, hv, l, le_refl l, by omega, rfl, hnd⟩
        · rcases hrec.1 e he with ⟨hir, hv, j, hj1, hj2, hco, hnd⟩
          exact ⟨hir, hv, j, by omega, hj2, hco, hnd⟩
      · intro c hc
        rcases scanLoopStep_corner _ _ c hc with hc | ⟨_, hc⟩
        · rcases hcorn c hc with ⟨hco, hv, hir, hld, hlm⟩
          subst hld
          exact ⟨hco ▸ hir, hv, hco⟩
        · exact hrec.2 c hc

/-! ### Scan level -/

theorem scan_eq_none (octant : Octant) (sp : StaticParams) (params : ScanParams)
    (h : octant.depthIndex sp.centre params.depth = none) :
    scan octant sp params = ([], [], none) := by
  unfold scan; rw [h]

theorem scan_eq_some (octant : Octant) (sp : StaticParams) (params : ScanParams)
    (di : Int) (h : octant.depthIndex sp.centre params.depth = some di) :
    scan octant sp params =
      scanLoop octant sp params.maxGradient params.depth di
        (scanBounds octant sp.centre params).1 (scanBounds octant sp.centre params).2
        params.visibility
        ((scanBounds octant sp.centre params).2 + 1 -
          (scanBounds octant sp.centre params).1).toNat
        (scanBounds octant sp.centre params).1 params.minGradient params.minInclusive
        0 false := by
  unfold scan; rw [h]

/-- Every child interval queued by `scan` from a well-formed interval is
well formed, one depth deeper, and has positive visibility. -/
theorem scan_pushes_mem (octant : Octant) (sp : StaticParams) (params : ScanParams)
    (hp : goodParams params) :
    ∀ q ∈ (scan octant sp params).1,
      goodParams q ∧ 0 < q.visibility ∧ q.depth = params.depth + 1 := by
  intro q hq
  rcases hp with ⟨hd, hm1, hm2, hx1, hx2, hx3⟩
  cases hdi : octant.depthIndex sp.centre params.depth with
  | none => rw [scan_eq_none octant sp params hdi] at hq; simp at hq
  | some di =>
    rw [scan_eq_some octant sp params di hdi] at hq
    have hlMin : 0 ≤ (scanBounds octant sp.centre params).1 :=
      scanLateralMin_nonneg _ _ _ hm1 hm2 (by omega)
    have hmax : (scanBounds octant sp.centre params).2 ≤ params.depth :=
      le_trans (min_le_left _ _) (scanLateralMaxRaw_le _ _ hx1 hx2 hx3 (by omega))
    exact scanLoop_pushes_mem octant sp params.maxGradient params.depth di
      (scanBounds octant sp.centre params).1 (scanBounds octant sp.centre params).2
      params.visibility hd hlMin hmax hx1 hx2 hx3 _ _ _ _ _ _ (le_refl _)
      (by omega) hm1 hm2 (fun hne => absurd rfl hne) q hq

/-- Every sink invocation of `scan` is in vision range and carries the
interval's own visibility; so does the returned corner, whose coordinate is
the diagonal cell of the strip. -/
theorem scan_emits_mem (octant : Octant) (sp : StaticParams) (params : ScanParams) :
    (∀ e ∈ (scan octant sp params).2.1,
      sp.inRange (e.coord.sub sp.centre) = true ∧ e.visibility = params.visibility) ∧
    (∀ c, (scan octant sp params).2.2 = some c →
      sp.inRange (c.coord.sub sp.centre) = true ∧ c.visibility = params.visibility ∧
      ∃ di, octant.depthIndex sp.centre params.depth = some di ∧
        c.coord = octant.makeCoord sp.centre params.depth di) := by
  cases hdi : octant.depthIndex sp.centre params.depth with
  | none =>
    rw [scan_eq_none octant sp params hdi]
    exact ⟨fun e he => absurd he (by simp), fun c hc => absurd hc (by simp)⟩
  | some di =>
    rw [scan_eq_some octant sp params di hdi]
    have h := scanLoop_emits_mem octant sp params.maxGradient params.depth di
      (scanBounds octant sp.centre params).1 (scanBounds octant sp.centre params).2
      params.visibility
      ((scanBounds octant sp.centre params).2 + 1 -
        (scanBounds octant sp.centre params).1).toNat
      (scanBounds octant sp.centre params).1 params.minGradient params.minInclusive
      0 false (by omega)
    constructor
    · intro e he
      rcases h.1 e he with ⟨hir, hv, _⟩
      exact ⟨hir, hv⟩
    · intro c hc
      rcases h.2 c hc with ⟨hir, hv, hco⟩
      exact ⟨hir, hv, di, rfl, hco⟩

/-- `scan` never invokes the sink on the diagonal terminal cell of its
strip: given a laterally injective coordinate map and a well-formed
interval, no emitted coordinate equals the diagonal cell's coordinate. -/
theorem scan_emits_avoid_diag (octant : Octant) (sp : StaticParams)
    (params : ScanParams) (hp : goodParams params) (di : Int)
    (hdi : octant.depthIndex sp.centre params.depth = some di)
    (hinj : ∀ j j' : Int, octant.makeCoord sp.centre j di =
      octant.makeCoord sp.centre j' di → j = j') :
    ∀ e ∈ (scan octant sp params).2.1,
      e.coord ≠ octant.makeCoord sp.centre params.depth di := by
  intro e he
  rcases hp with ⟨hd, hm1, hm2, hx1, hx2, hx3⟩
  rw [scan_eq_some octant sp params di hdi] at he
  have hmax : (scanBounds octant sp.centre params).2 ≤ params.depth :=
    le_trans (min_le_left _ _) (scanLateralMaxRaw_le _ _ hx1 hx2 hx3 (by omega))
  have h := scanLoop_emits_mem octant sp params.maxGradient params.depth di
    (scanBounds octant sp.centre params).1 (scanBounds octant sp.centre params).2
    params.visibility
    ((scanBounds octant sp.centre params).2 + 1 -
      (scanBounds octant sp.centre params).1).toNat
    (scanBounds octant sp.centre params).1 params.minGradient params.minInclusive
    0 false (by omega)
  rcases h.1 e he with ⟨_, _, j, hj1, hj2, hco, hnd⟩
  intro hcontra
  rw [hco] at hcontra
  have hj : j = params.depth := hinj j params.depth hcontra
  exact hnd ⟨by omega, hj⟩

/-! ### Driver level -/

/-- The corner observations returned by draining a queue through `scan`. -/
def scanCorners (octant : Octant) (sp : StaticParams)
    (queue : List ScanParams) : List CornerInfo :=
  queue.filterMap (fun p => (scan octant sp p).2.2)

theorem runQueue_pushes (octant : Octant) (sp : StaticParams) :
    ∀ (queue : List ScanParams) (acc : CornerAcc),
      ∀ q ∈ (runQueue octant sp queue acc).1,
        ∃ p ∈ queue, q ∈ (scan octant sp p).1 := by
  intro queue
  induction queue with
  | nil => intro acc q hq; simp [runQueue] at hq
  | cons p rest ih =>
    intro acc q hq
    rw [runQueue] at hq
    rcases List.mem_append.mp hq with hq | hq
    · exact ⟨p, List.mem_cons_self p rest, hq⟩
    · rcases ih _ q hq with ⟨p', hp', hq'⟩
      exact ⟨p', List.mem_cons_of_mem p hp', hq'⟩

theorem runQueue_emits (octant : Octant) (sp : StaticParams) :
    ∀ (queue : List ScanParams) (acc : CornerAcc),
      ∀ e ∈ (runQueue octant sp queue acc).2.1,
        ∃ p ∈ queue, e ∈ (scan octant sp p).2.1 := by
  intro queue
  induction queue with
  | nil => intro acc e he; simp [runQueue] at he
  | cons p rest ih =>
    intro acc e he
    rw [runQueue] at he
    rcases List.mem_append.mp he with he | he
    · exact ⟨p, List.mem_cons_self p rest, he⟩
    · rcases ih _ e he with ⟨p', hp', he'⟩
      exact ⟨p', List.mem_cons_of_mem p hp', he'⟩

/-- Draining a queue folds the corner observations of its scans, in order,
into the corner accumulator. -/
theorem runQueue_corner (octant : Octant) (sp : StaticParams) :
    ∀ (queue : List ScanParams) (acc : CornerAcc),
      (runQueue octant sp queue acc).2.2 =
        (scanCorners octant sp queue).foldl cornerFold acc := by
  intro queue
  induction queue with
  | nil => intro acc; rfl
  | cons p rest ih =>
    intro acc
    rw [runQueue]
    cases hc : (scan octant sp p).2.2 with
    | none => simp only [scanCorners, List.filterMap_cons, hc]; exact ih _
    | some c => simp only [scanCorners, List.filterMap_cons, hc, List.foldl_cons]; exact ih _

/-- The coordinate in a folded corner accumulator comes from the initial
accumulator or from one of the folded corners. -/
theorem foldl_cornerFold_coord :
    ∀ (cs : List CornerInfo) (acc : CornerAcc) (c : Coord),
      (cs.foldl cornerFold acc).coord = some c →
      acc.coord = some c ∨ ∃ ci ∈ cs, ci.coord = c := by
  intro cs
  induction cs with
  | nil => intro acc c hc; exact Or.inl hc
  | cons ci rest ih =>
    intro acc c hc
    rw [List.foldl_cons] at hc
    rcases ih _ c hc with hc | ⟨ci', hci', hc⟩
    · have hco : ci.coord = c := by simpa [cornerFold] using hc
      exact Or.inr ⟨ci, List.mem_cons_self ci rest, hco⟩
    · exact Or.inr ⟨ci', List.mem_cons_of_mem ci hci', hc⟩

/-- Every sink invocation of one driver round is in vision range. -/
theorem observeRound_emits_inRange (octA octB : Octant) (sp : StaticParams)
    (queueA queueB : List ScanParams) :
    ∀ e ∈ (observeRound octA octB sp queueA queueB).2.2,
      sp.inRange (e.coord.sub sp.centre) = true := by
  intro e he
  unfold observeRound at he
  simp only at he
  rcases List.mem_append.mp he with he | he
  · rcases List.mem_append.mp he with he | he
    · rcases runQueue_emits octA sp queueA _ e he with ⟨p, _, he'⟩
      exact ((scan_emits_mem octA sp p).1 e he').1
    · rcases runQueue_emits octB sp queueB _ e he with ⟨p, _, he'⟩
      exact ((scan_emits_mem octB sp p).1 e he').1
  · -- the reconciled corner invocation
    split at he
    · simp at he
    · rename_i c hc
      simp only [List.mem_singleton] at he
      subst he
      rw [runQueue_corner] at hc
      rcases foldl_cornerFold_coord _ _ c hc with hc' | ⟨ci, hci, hc'⟩
      · rw [runQueue_corner] at hc'
        rcases foldl_cornerFold_coord _ _ c hc' with hc'' | ⟨ci, hci, hc''⟩
        · simp at hc''
        · rcases List.mem_filterMap.mp hci with ⟨p, _, hp⟩
          rcases ((scan_emits_mem octA sp p).2 ci hp) with ⟨hir, _, _⟩
          simp only
          rw [hc''] at hir
          exact hir
      · rcases List.mem_filterMap.mp hci with ⟨p, _, hp⟩
        rcases ((scan_emits_mem octB sp p).2 ci hp) with ⟨hir, _, _⟩
        simp only
        rw [hc'] at hir
        exact hir

/-- Next-depth queue provenance for one driver round. -/
theorem observeRound_pushes (octA octB : Octant) (sp : StaticParams)
    (queueA queueB : List ScanParams) :
    (∀ q ∈ (observeRound octA octB sp queueA queueB).1,
      ∃ p ∈ queueA, q ∈ (scan octA sp p).1) ∧
    (∀ q ∈ (observeRound octA octB sp queueA queueB).2.1,
      ∃ p ∈ queueB, q ∈ (scan octB sp p).1) := by
  constructor
  · intro q hq
    unfold observeRound at hq
    simp only at hq
    exact runQueue_pushes octA sp queueA _ q hq
  · intro q hq
    unfold observeRound at hq
    simp only at hq
    exact runQueue_pushes octB sp queueB _ q hq

/-- Every sink invocation of the driver loop is in vision range. -/
theorem observeLoop_emits_inRange (octA octB : Octant) (sp : StaticParams) :
    ∀ (fuel : Nat) (queueA queueB : List ScanParams) (out : List Emit),
      observeLoop octA octB sp fuel queueA queueB = some out →
      ∀ e ∈ out, sp.inRange (e.coord.sub sp.centre) = true := by
  intro fuel
  induction fuel with
  | zero => intro qA qB out h; simp [observeLoop] at h
  | succ fuel ih =>
    intro qA qB out h e he
    rw [observeLoop] at h
    split at h
    · cases h
      exact observeRound_emits_inRange octA octB sp qA qB e he
    · split at h
      · cases h
      · rename_i rest hrest
        cases h
        rcases List.mem_append.mp he with he | he
        · exact observeRound_emits_inRange octA octB sp qA qB e he
        · exact ih _ _ rest hrest e he

/-! ### Termination -/

/-- Unconditionally, every pushed child interval is one depth deeper. -/
theorem scanLoop_pushes_depth (octant : Octant) (sp : StaticParams)
    (maxGradient : Gradient) (depth depthIndex lateralMin lateralMax visibility : Int) :
    ∀ (fuel : Nat) (lateralIndex : Int) (minGradient : Gradient)
      (minInclusive : Bool) (prevVisibility : Int) (prevOpaque : Bool),
      ∀ q ∈ (scanLoop octant sp maxGradient depth depthIndex lateralMin lateralMax
          visibility fuel lateralIndex minGradient minInclusive prevVisibility
          prevOpaque).1,
        q.depth = depth + 1 := by
  intro fuel
  induction fuel with
  | zero => intro l minG minInc pv po q hq; simp [scanLoop_zero] at hq
  | succ fuel ih =>
    intro l minG minInc pv po q hq
    rw [scanLoop_succ] at hq
    split at hq
    · simp at hq
    · rcases scanLoopStep_pushes _ _ q hq with hq | hq
      · exact (scanCell_pushes_mem _ _ _ _ _ _ _ _ _ _ _ _ _ _ q hq).1
      · exact ih _ _ _ _ _ q hq

theorem scan_pushes_depth (octant : Octant) (sp : StaticParams) (params : ScanParams) :
    ∀ q ∈ (scan octant sp params).1, q.depth = params.depth + 1 := by
  intro q hq
  cases hdi : octant.depthIndex sp.centre params.depth with
  | none => rw [scan_eq_none octant sp params hdi] at hq; simp at hq
  | some di =>
    rw [scan_eq_some octant sp params di hdi] at hq
    exact scanLoop_pushes_depth octant sp _ _ _ _ _ _ _ _ _ _ _ _ q hq

/-- If the depth of every queued interval is past the point where both
octants' `depth_index` gives up, the loop finishes within the given fuel. -/
theorem observeLoop_isSome (octA octB : Octant) (sp : StaticParams) (bound : Int)
    (hA : ∀ depth : Int, bound ≤ depth → octA.depthIndex sp.centre depth = none)
    (hB : ∀ depth : Int, bound ≤ depth → octB.depthIndex sp.centre depth = none) :
    ∀ (fuel : Nat) (d : Int) (queueA queueB : List ScanParams),
      (∀ p ∈ queueA, p.depth = d) → (∀ p ∈ queueB, p.depth = d) →
      (bound - d).toNat < fuel →
      (observeLoop octA octB sp fuel queueA queueB).isSome = true := by
  intro fuel
  induction fuel with
  | zero => intro d qA qB _ _ hlt; omega
  | succ fuel ih =>
    intro d qA qB hqA hqB hlt
    rw [observeLoop]
    split
    · rfl
    · rename_i hne
      have hnextA : ∀ q ∈ (observeRound octA octB sp qA qB).1, q.depth = d + 1 := by
        intro q hq
        rcases (observeRound_pushes octA octB sp qA qB).1 q hq with ⟨p, hp, hq'⟩
        rw [scan_pushes_depth octA sp p q hq', hqA p hp]
      have hnextB : ∀ q ∈ (observeRound octA octB sp qA qB).2.1, q.depth = d + 1 := by
        intro q hq
        rcases (observeRound_pushes octA octB sp qA qB).2 q hq with ⟨p, hp, hq'⟩
        rw [scan_pushes_depth octB sp p q hq', hqB p hp]
      have hdb : d < bound := by
        by_contra hge
        push_neg at hge
        apply hne
        simp only [Bool.and_eq_true, List.isEmpty_iff]
        constructor
        · rcases hl : (observeRound octA octB sp qA qB).1 with _ | ⟨q, rest⟩
          · rfl
          · exfalso
            have hq : q ∈ (observeRound octA octB sp qA qB).1 := by rw [hl]; simp
            rcases (observeRound_pushes octA octB sp qA qB).1 q hq with ⟨p, hp, hq'⟩
            rw [scan_eq_none octA sp p (hA p.depth (by rw [hqA p hp]; omega))] at hq'
            simp at hq'
        · rcases hl : (observeRound octA octB sp qA qB).2.1 with _ | ⟨q, rest⟩
          · rfl
          · exfalso
            have hq : q ∈ (observeRound octA octB sp qA qB).2.1 := by rw [hl]; simp
            rcases (observeRound_pushes octA octB sp qA qB).2 q hq with ⟨p, hp, hq'⟩
            rw [scan_eq_none octB sp p (hB p.depth (by rw [hqB p hp]; omega))] at hq'
            simp at hq'
      have hih := ih (d + 1) (observeRound octA octB sp qA qB).1
        (observeRound octA octB sp qA qB).2.1 hnextA hnextB (by omega)
      rcases Option.isSome_iff_exists.mp hih with ⟨rest, hrest⟩
      rw [hrest]
      rfl

theorem observeOctant_isSome (octA octB : Octant) (sp : StaticParams) (bound : Int)
    (hA : ∀ depth : Int, bound ≤ depth → octA.depthIndex sp.centre depth = none)
    (hB : ∀ depth : Int, bound ≤ depth → octB.depthIndex sp.centre depth = none)
    (fuel : Nat) (hfuel : (bound - 1).toNat < fuel) :
    (observeOctant octA octB sp fuel).isSome = true := by
  unfold observeOctant
  exact observeLoop_isSome octA octB sp bound hA hB fuel 1 _ _
    (by intro p hp; simp only [List.mem_singleton] at hp; rw [hp]; rfl)
    (by intro p hp; simp only [List.mem_singleton] at hp; rw [hp]; rfl)
    hfuel

theorem observeBound_facts (centre : Coord) (width height : Int) :
    centre.x + 1 ≤ observeBound centre width height ∧
    centre.y + 1 ≤ observeBound centre width height ∧
    width - centre.x ≤ observeBound centre width height ∧
    height - centre.y ≤ observeBound centre width height :=
  ⟨le_trans (le_max_left _ _) (le_max_left _ _),
   le_trans (le_max_right _ _) (le_max_left _ _),
   le_trans (le_max_left _ _) (le_max_right _ _),
   le_trans (le_max_right _ _) (le_max_right _ _)⟩

/-- Past `observeBound` every one of the eight octants' `depth_index` is
`none`. -/
theorem pairOctants_depthIndex_none (centre : Coord) (width height : Int) :
    ∀ octant ∈ pairOctants width height, ∀ depth : Int,
      observeBound centre width height ≤ depth →
      octant.depthIndex centre depth = none := by
  intro octant hoct depth hdep
  obtain ⟨h1, h2, h3, h4⟩ := observeBound_facts centre width height
  simp only [pairOctants, List.mem_cons, List.not_mem_nil, or_false] at hoct
  rcases hoct with rfl | rfl | rfl | rfl | rfl | rfl | rfl | rfl
  · exact if_neg (by omega)
  · exact if_neg (by omega)
  · exact if_neg (by omega)
  · exact if_neg (by omega)
  · exact if_neg (by omega)
  · exact if_neg (by omega)
  · exact if_neg (by omega)
  · exact if_neg (by omega)

theorem forEach_parts (centre : Coord) (width height : Int) (opacity : Coord → Int)
    (inRange : Coord → Bool) (initialVisibility : Int) :
    ∃ e1 e2 e3 e4 : List Emit,
      observeOctant TopLeft LeftTop
        ⟨centre, inRange, opacity, width, height, initialVisibility⟩
        (forEachBound centre width height) = some e1 ∧
      observeOctant (RightTop width) (TopRight width)
        ⟨centre, inRange, opacity, width, height, initialVisibility⟩
        (forEachBound centre width height) = some e2 ∧
      observeOctant (LeftBottom height) (BottomLeft height)
        ⟨centre, inRange, opacity, width, height, initialVisibility⟩
        (forEachBound centre width height) = some e3 ∧
      observeOctant (BottomRight width height) (RightBottom width height)
        ⟨centre, inRange, opacity, width, height, initialVisibility⟩
        (forEachBound centre width height) = some e4 ∧
      forEach centre width height opacity inRange initialVisibility =
        some (⟨centre, DirectionBitmap.all, initialVisibility⟩ ::
          (e1 ++ e2 ++ e3 ++ e4)) := by
  have hnone := pairOctants_depthIndex_none centre width height
  have hfuel : (observeBound centre width height - 1).toNat <
      forEachBound centre width height := by
    unfold forEachBound; omega
  have h1 := observeOctant_isSome TopLeft LeftTop
    ⟨centre, inRange, opacity, width, height, initialVisibility⟩ _
    (hnone TopLeft (by simp [pairOctants]))
    (hnone LeftTop (by simp [pairOctants])) _ hfuel
  have h2 := observeOctant_isSome (RightTop width) (TopRight width)
    ⟨centre, inRange, opacity, width, height, initialVisibility⟩ _
    (hnone (RightTop width) (by simp [pairOctants]))
    (hnone (TopRight width) (by simp [pairOctants])) _ hfuel
  have h3 := observeOctant_isSome (LeftBottom height) (BottomLeft height)
    ⟨centre, inRange, opacity, width, height, initialVisibility⟩ _
    (hnone (LeftBottom height) (by simp [pairOctants]))
    (hnone (BottomLeft height) (by simp [pairOctants])) _ hfuel
  have h4 := observeOctant_isSome (BottomRight width height) (RightBottom width height)
    ⟨centre, inRange, opacity, width, height, initialVisibility⟩ _
    (hnone (BottomRight width height) (by simp [pairOctants]))
    (hnone (RightBottom width height) (by simp [pairOctants])) _ hfuel
  rcases Option.isSome_iff_exists.mp h1 with ⟨e1, he1⟩
  rcases Option.isSome_iff_exists.mp h2 with ⟨e2, he2⟩
  rcases Option.isSome_iff_exists.mp h3 with ⟨e3, he3⟩
  rcases Option.isSome_iff_exists.mp h4 with ⟨e4, he4⟩
  refine ⟨e1, e2, e3, e4, he1, he2, he3, he4, ?_⟩
  unfold forEach forEachFuel
  simp only
  rw [he1, he2, he3, he4]

/-! ### Behaviour on fully transparent grids -/

theorem DirectionBitmap.empty_or (b : DirectionBitmap) :
    DirectionBitmap.empty.or b = b := by
  cases b
  simp [DirectionBitmap.or, DirectionBitmap.empty]

theorem DirectionBitmap.or_self (b : DirectionBitmap) : b.or b = b := by
  cases b
  simp [DirectionBitmap.or]

theorem stepVisibility_transparent (v : Int) (hv : 0 < v) :
    stepVisibility v 0 = (v, false) := by
  unfold stepVisibility
  rw [if_pos hv]
  norm_num

/-- On a transparent cell with the base gradients, a loop iteration leaves
the interval state untouched, sees the cell from all directions, and pushes
the continuation interval exactly at the final cell. -/
theorem scanCell_transparent (octant : Octant)
    (depth lateralMin lateralMax visibility : Int)
    (prevVisibility : Int) (lateralIndex : Int) (coord : Coord) (inRange : Bool)
    (hv : 0 < visibility)
    (hprev : lateralIndex = lateralMin ∨ prevVisibility = visibility) :
    scanCell octant ⟨1, 1⟩ depth lateralMin lateralMax visibility
        ⟨0, 1⟩ true prevVisibility false lateralIndex coord 0 inRange =
      { pushes :=
          if lateralIndex == lateralMax then
            [⟨⟨0, 1⟩, ⟨1, 1⟩, true, depth + 1, visibility⟩]
          else []
        emit :=
          if lateralIndex == lateralMax && (inRange && lateralIndex == depth) then []
          else if inRange && octant.shouldSee lateralIndex then
            [⟨coord, DirectionBitmap.all, visibility⟩]
          else []
        corner :=
          if lateralIndex == lateralMax && (inRange && lateralIndex == depth) then
            some ⟨DirectionBitmap.all, coord, visibility⟩
          else none
        minGradient := ⟨0, 1⟩
        minInclusive := true
        curVisibility := visibility
        curOpaque := false } := by
  have hstep : stepVisibility visibility 0 = (visibility, false) :=
    stepVisibility_transparent visibility hv
  rcases hprev with h | h <;> subst h <;>
    simp [scanCell, transitionStep, hstep, gradEq, DirectionBitmap.empty_or]

/-- On a fully transparent grid the lateral loop of the base interval
pushes exactly the base interval of the next depth, emits every in-range
non-diagonal cell of the strip from all directions, and returns the
diagonal cell as an all-directions corner when the strip reaches it in
range. -/
theorem scanLoop_transparent (octant : Octant) (sp : StaticParams)
    (depth depthIndex lateralMin lateralMax visibility : Int)
    (hv : 0 < visibility) (hop : ∀ c, sp.opacity c = 0) :
    ∀ (fuel : Nat) (lateralIndex prevVisibility : Int),
      lateralIndex + (fuel : Int) = lateralMax + 1 →
      (lateralIndex = lateralMin ∨ prevVisibility = visibility) →
      (∀ j : Int, lateralIndex ≤ j → j ≤ lateralMax →
        ¬ outOfBounds sp (octant.makeCoord sp.centre j depthIndex)) →
      (lateralIndex ≤ lateralMax →
        (scanLoop octant sp ⟨1, 1⟩ depth depthIndex lateralMin lateralMax visibility
          fuel lateralIndex ⟨0, 1⟩ true prevVisibility false).1 =
        [⟨⟨0, 1⟩, ⟨1, 1⟩, true, depth + 1, visibility⟩]) ∧
      (∀ j : Int, lateralIndex ≤ j → j ≤ lateralMax →
        sp.inRange ((octant.makeCoord sp.centre j depthIndex).sub sp.centre) = true →
        octant.shouldSee j = true → ¬(j = lateralMax ∧ j = depth) →
        (⟨octant.makeCoord sp.centre j depthIndex, DirectionBitmap.all, visibility⟩ : Emit) ∈
          (scanLoop octant sp ⟨1, 1⟩ depth depthIndex lateralMin lateralMax visibility
            fuel lateralIndex ⟨0, 1⟩ true prevVisibility false).2.1) ∧
      (lateralIndex ≤ lateralMax → lateralMax = depth →
        sp.inRange ((octant.makeCoord sp.centre depth depthIndex).sub sp.centre) = true →
        (scanLoop octant sp ⟨1, 1⟩ depth depthIndex lateralMin lateralMax visibility
          fuel lateralIndex ⟨0, 1⟩ true prevVisibility false).2.2 =
        some ⟨DirectionBitmap.all, octant.makeCoord sp.centre depth depthIndex,
          visibility⟩) := by
  intro fuel
  induction fuel with
  | zero =>
    intro l pv hfuel hprev hnb
    refine ⟨fun hle => by omega, fun j hj1 hj2 _ _ _ => by omega, fun hle _ _ => by omega⟩
  | succ fuel ih =>
    intro l pv hfuel hprev hnb
    have hle : l ≤ lateralMax := by
      have := Nat.cast_nonneg (α := Int) fuel
      omega
    have hcell : scanLoopCell octant sp ⟨1, 1⟩ depth depthIndex lateralMin lateralMax
        visibility l ⟨0, 1⟩ true pv false =
        { pushes :=
            if l == lateralMax then
              [⟨⟨0, 1⟩, ⟨1, 1⟩, true, depth + 1, visibility⟩]
            else []
          emit :=
            if l == lateralMax &&
                (sp.inRange ((octant.makeCoord sp.centre l depthIndex).sub sp.centre) &&
                  l == depth) then []
            else if sp.inRange ((octant.makeCoord sp.centre l depthIndex).sub sp.centre) &&
                octant.shouldSee l then
              [⟨octant.makeCoord sp.centre l depthIndex, DirectionBitmap.all, visibility⟩]
            else []
          corner :=
            if l == lateralMax &&
                (sp.inRange ((octant.makeCoord sp.centre l depthIndex).sub sp.centre) &&
                  l == depth) then
              some ⟨DirectionBitmap.all, octant.makeCoord sp.centre l depthIndex, visibility⟩
            else none
          minGradient := ⟨0, 1⟩
          minInclusive := true
          curVisibility := visibility
          curOpaque := false } := by
      unfold scanLoopCell
      rw [hop]
      exact scanCell_transparent octant depth lateralMin lateralMax visibility pv l
        (octant.makeCoord sp.centre l depthIndex)
        (sp.inRange ((octant.makeCoord sp.centre l depthIndex).sub sp.centre)) hv hprev
    rw [scanLoop_succ, if_neg (hnb l (le_refl l) hle), hcell]
    have hrest := ih (l + 1) visibility (by push_cast at hfuel ⊢; omega) (Or.inr rfl)
      (fun j hj1 hj2 => hnb j (by omega) hj2)
    cases hco : (l == lateralMax &&
        (sp.inRange ((octant.makeCoord sp.centre l depthIndex).sub sp.centre) &&
          l == depth)) with
    | true =>
      -- diagonal terminal cell: the early return
      have h2 := hco
      simp only [Bool.and_eq_true, beq_iff_eq] at h2
      obtain ⟨hlm, hir, hld⟩ := h2
      refine ⟨?_, ?_, ?_⟩
      · intro _
        simp only [scanLoopStep, hco]
        simp [hlm]
      · intro j hj1 hj2 _ _ hnd
        exact absurd ⟨by omega, by omega⟩ hnd
      · intro _ _ _
        simp only [scanLoopStep, hco]
        simp [hld]
    | false =>
      refine ⟨?_, ?_, ?_⟩
      · intro _
        simp only [scanLoopStep, hco, Bool.false_eq_true, if_false]
        by_cases hlm : l = lateralMax
        · have hfz : fuel = 0 := by push_cast at hfuel; omega
          subst hfz
          simp [scanLoop_zero, hlm]
        · have hlneq : (l == lateralMax) = false := by simp [hlm]
          simp only [hlneq, Bool.false_eq_true, if_false, List.nil_append]
          exact hrest.1 (by omega)
      · intro j hj1 hj2 hir hsee hnd
        simp only [scanLoopStep, hco, Bool.false_eq_true, if_false]
        rcases eq_or_lt_of_le hj1 with hj | hj
        · subst hj
          apply List.mem_append_left
          rw [if_pos (by rw [hir, hsee]; rfl)]
          simp
        · apply List.mem_append_right
          exact hrest.2.1 j (by omega) hj2 hir hsee hnd
      · intro _ hlm hir
        have hlneq : l ≠ lateralMax := by
          intro hcontra
          have hld : l = depth := hcontra.trans hlm
          have htrue : (l == lateralMax &&
              (sp.inRange ((octant.makeCoord sp.centre l depthIndex).sub sp.centre) &&
                l == depth)) = true := by
            rw [hcontra, hlm]
            simp [hir]
          rw [htrue] at hco
          simp at hco
        simp only [scanLoopStep, hco, Bool.false_eq_true, if_false]
        exact hrest.2.2 (by omega) hlm hir

/-- For the base interval the lateral bounds are `0` and
`min depth (octant.lateral_max centre)`. -/
theorem scanBounds_base (octant : Octant) (centre : Coord) (d v : Int) :
    scanBounds octant centre ⟨⟨0, 1⟩, ⟨1, 1⟩, true, d, v⟩ =
      (0, min d (octant.lateralMax centre)) := by
  unfold scanBounds scanLateralMin scanLateralMaxRaw
  simp only
  have h1 : (1 : Int) + 1 * (d * 2) - 1 = d * 2 := by ring
  have h0 : (1 : Int) + 0 * (d * 2) = 1 := by ring
  have h2 : (1 : Int) * 2 = 2 := by norm_num
  rw [h1, h0, h2, Int.mul_tdiv_cancel d (by norm_num), if_pos trivial]
  norm_num
  decide

/-- `scan` of the base interval on a fully transparent grid: one
continuation push, every in-range non-diagonal strip cell emitted from all
directions, and the diagonal corner returned when reached in range. -/
theorem scan_transparent (octant : Octant) (sp : StaticParams) (d di v : Int)
    (hv : 0 < v) (hop : ∀ c, sp.opacity c = 0)
    (hdi : octant.depthIndex sp.centre d = some di)
    (hlm : 0 ≤ octant.lateralMax sp.centre) (hd : 1 ≤ d)
    (hnb : ∀ j : Int, 0 ≤ j → j ≤ min d (octant.lateralMax sp.centre) →
      ¬ outOfBounds sp (octant.makeCoord sp.centre j di)) :
    ((scan octant sp ⟨⟨0, 1⟩, ⟨1, 1⟩, true, d, v⟩).1 =
      [⟨⟨0, 1⟩, ⟨1, 1⟩, true, d + 1, v⟩]) ∧
    (∀ j : Int, 0 ≤ j → j ≤ min d (octant.lateralMax sp.centre) →
      sp.inRange ((octant.makeCoord sp.centre j di).sub sp.centre) = true →
      octant.shouldSee j = true → j ≠ d →
      (⟨octant.makeCoord sp.centre j di, DirectionBitmap.all, v⟩ : Emit) ∈
        (scan octant sp ⟨⟨0, 1⟩, ⟨1, 1⟩, true, d, v⟩).2.1) ∧
    (d ≤ octant.lateralMax sp.centre →
      sp.inRange ((octant.makeCoord sp.centre d di).sub sp.centre) = true →
      (scan octant sp ⟨⟨0, 1⟩, ⟨1, 1⟩, true, d, v⟩).2.2 =
        some ⟨DirectionBitmap.all, octant.makeCoord sp.centre d di, v⟩) := by
  have heq := scan_eq_some octant sp ⟨⟨0, 1⟩, ⟨1, 1⟩, true, d, v⟩ di hdi
  rw [scanBounds_base] at heq
  simp only at heq
  have hminle : (0 : Int) ≤ min d (octant.lateralMax sp.centre) := by
    simp only [le_min_iff]
    omega
  have h := scanLoop_transparent octant sp d di 0 (min d (octant.lateralMax sp.centre))
    v hv hop (min d (octant.lateralMax sp.centre) + 1 - 0).toNat 0 0 (by omega)
    (Or.inl rfl) (fun j hj1 hj2 => hnb j hj1 hj2)
  refine ⟨?_, ?_, ?_⟩
  · rw [heq]
    exact h.1 hminle
  · intro j hj1 hj2 hir hsee hjd
    rw [heq]
    refine h.2.1 j hj1 hj2 hir hsee ?_
    intro hand
    exact hjd hand.2
  · intro hdle hir
    rw [heq]
    exact h.2.2 hminle (min_eq_left hdle) hir

/-- Draining a singleton queue. -/
theorem runQueue_singleton (octant : Octant) (sp : StaticParams) (p : ScanParams)
    (acc : CornerAcc) :
    runQueue octant sp [p] acc =
      ((scan octant sp p).1, (scan octant sp p).2.1,
        match (scan octant sp p).2.2 with
        | none => acc
        | some c => cornerFold acc c) := by
  rw [runQueue]
  cases (scan octant sp p).2.2 with
  | none => simp [runQueue]
  | some c => simp [runQueue]

/-- Conditions under which an octant's strips stay inside the grid up to
depth `D`. -/
def octantOk (octant : Octant) (sp : StaticParams) (D : Int) : Prop :=
  0 ≤ octant.lateralMax sp.centre ∧
  ∀ s : Int, 1 ≤ s → s ≤ D → ∃ di, octant.depthIndex sp.centre s = some di ∧
    ∀ j : Int, 0 ≤ j → j ≤ min s (octant.lateralMax sp.centre) →
      ¬ outOfBounds sp (octant.makeCoord sp.centre j di)

theorem observeRound_singletonA (octA octB : Octant) (sp : StaticParams)
    (p : ScanParams) (queueB : List ScanParams) :
    (observeRound octA octB sp [p] queueB).1 = (scan octA sp p).1 ∧
    ∀ e ∈ (scan octA sp p).2.1, e ∈ (observeRound octA octB sp [p] queueB).2.2 := by
  unfold observeRound
  simp only [runQueue_singleton]
  exact ⟨trivial, fun e he => List.mem_append_left _ (List.mem_append_left _ he)⟩

theorem observeRound_singletonB (octA octB : Octant) (sp : StaticParams)
    (queueA : List ScanParams) (p : ScanParams) :
    (observeRound octA octB sp queueA [p]).2.1 = (scan octB sp p).1 ∧
    ∀ e ∈ (scan octB sp p).2.1, e ∈ (observeRound octA octB sp queueA [p]).2.2 := by
  unfold observeRound
  simp only [runQueue_singleton]
  exact ⟨trivial, fun e he =>
    List.mem_append_left _ (List.mem_append_right _ he)⟩

theorem reconcile_all : reconcile DirectionBitmap.all = DirectionBitmap.all := by
  decide

/-- When both octants of a pair return the shared diagonal cell as an
all-directions corner, the round reports that cell once, from all
directions, with the common visibility. -/
theorem observeRound_corner_all (octA octB : Octant) (sp : StaticParams)
    (p q : ScanParams) (c : Coord) (v : Int) (hv : 0 < v)
    (hA : (scan octA sp p).2.2 = some ⟨DirectionBitmap.all, c, v⟩)
    (hB : (scan octB sp q).2.2 = some ⟨DirectionBitmap.all, c, v⟩) :
    (⟨c, DirectionBitmap.all, v⟩ : Emit) ∈ (observeRound octA octB sp [p] [q]).2.2 := by
  unfold observeRound
  simp only [runQueue_singleton, hA, hB]
  have hacc1 : cornerFold ⟨DirectionBitmap.empty, none, 0⟩
      ⟨DirectionBitmap.all, c, v⟩ = ⟨DirectionBitmap.all, some c, v⟩ := by
    unfold cornerFold
    rw [if_pos hv, DirectionBitmap.empty_or]
  have hacc2 : cornerFold ⟨DirectionBitmap.all, some c, v⟩
      ⟨DirectionBitmap.all, c, v⟩ = ⟨DirectionBitmap.all, some c, v⟩ := by
    unfold cornerFold
    rw [if_neg (lt_irrefl v), DirectionBitmap.or_self]
  rw [hacc1, hacc2]
  simp only [reconcile_all]
  apply List.mem_append_right
  simp

/-- On a transparent grid, an in-range non-diagonal cell of octant `A` at
depth `D` is reported by the driver loop, from all directions, with the
initial visibility. -/
theorem observeLoop_transparent_emitA (octA octB : Octant) (sp : StaticParams)
    (v D : Int) (hv : 0 < v) (hop : ∀ c, sp.opacity c = 0)
    (hA : octantOk octA sp D) :
    ∀ (fuel : Nat) (d : Int) (queueB : List ScanParams) (out : List Emit),
      1 ≤ d → d ≤ D →
      observeLoop octA octB sp fuel [⟨⟨0, 1⟩, ⟨1, 1⟩, true, d, v⟩] queueB = some out →
      ∀ (di j : Int), octA.depthIndex sp.centre D = some di →
        0 ≤ j → j ≤ min D (octA.lateralMax sp.centre) → j ≠ D →
        octA.shouldSee j = true →
        sp.inRange ((octA.makeCoord sp.centre j di).sub sp.centre) = true →
        (⟨octA.makeCoord sp.centre j di, DirectionBitmap.all, v⟩ : Emit) ∈ out := by
  intro fuel
  induction fuel with
  | zero => intro d qB out _ _ h; simp [observeLoop] at h
  | succ fuel ih =>
    intro d qB out hd1 hdD h di j hdi hj0 hjle hjD hsee hir
    obtain ⟨hlm0, hrows⟩ := hA
    obtain ⟨did, hdid, hnbd⟩ := hrows d hd1 hdD
    have hscan := scan_transparent octA sp d did v hv hop hdid hlm0 hd1 hnbd
    have hround := observeRound_singletonA octA octB sp
      ⟨⟨0, 1⟩, ⟨1, 1⟩, true, d, v⟩ qB
    rw [observeLoop] at h
    rcases eq_or_lt_of_le hdD with hdd | hdd
    · -- this round is depth D: the target is among octant A's emits
      subst hdd
      have hdieq : did = di := by
        rw [hdid] at hdi
        exact Option.some.inj hdi
      subst hdieq
      have hmem : (⟨octA.makeCoord sp.centre j did, DirectionBitmap.all, v⟩ : Emit) ∈
          (observeRound octA octB sp [⟨⟨0, 1⟩, ⟨1, 1⟩, true, d, v⟩] qB).2.2 :=
        hround.2 _ (hscan.2.1 j hj0 hjle hir hsee hjD)
      split at h
      · cases h; exact hmem
      · split at h
        · cases h
        · cases h; exact List.mem_append_left _ hmem
    · -- recurse to the next depth
      have hnext : (observeRound octA octB sp [⟨⟨0, 1⟩, ⟨1, 1⟩, true, d, v⟩] qB).1 =
          [⟨⟨0, 1⟩, ⟨1, 1⟩, true, d + 1, v⟩] := by
        rw [hround.1, hscan.1]
      split at h
      · rename_i hemp
        simp only [Bool.and_eq_true, List.isEmpty_iff, hnext] at hemp
        cases hemp.1
      · split at h
        · cases h
        · rename_i rest hrest
          cases h
          apply List.mem_append_right
          rw [hnext] at hrest
          exact ih (d + 1) _ rest (by omega) (by omega) hrest di j hdi hj0 hjle
            hjD hsee hir

/-- On a transparent grid, an in-range non-diagonal cell of octant `B` at
depth `D` is reported by the driver loop, from all directions, with the
initial visibility. -/
theorem observeLoop_transparent_emitB (octA octB : Octant) (sp : StaticParams)
    (v D : Int) (hv : 0 < v) (hop : ∀ c, sp.opacity c = 0)
    (hB : octantOk octB sp D) :
    ∀ (fuel : Nat) (d : Int) (queueA : List ScanParams) (out : List Emit),
      1 ≤ d → d ≤ D →
      observeLoop octA octB sp fuel queueA [⟨⟨0, 1⟩, ⟨1, 1⟩, true, d, v⟩] = some out →
      ∀ (di j : Int), octB.depthIndex sp.centre D = some di →
        0 ≤ j → j ≤ min D (octB.lateralMax sp.centre) → j ≠ D →
        octB.shouldSee j = true →
        sp.inRange ((octB.makeCoord sp.centre j di).sub sp.centre) = true →
        (⟨octB.makeCoord sp.centre j di, DirectionBitmap.all, v⟩ : Emit) ∈ out := by
  intro fuel
  induction fuel with
  | zero => intro d qA out _ _ h; simp [observeLoop] at h
  | succ fuel ih =>
    intro d qA out hd1 hdD h di j hdi hj0 hjle hjD hsee hir
    obtain ⟨hlm0, hrows⟩ := hB
    obtain ⟨did, hdid, hnbd⟩ := hrows d hd1 hdD
    have hscan := scan_transparent octB sp d did v hv hop hdid hlm0 hd1 hnbd
    have hround := observeRound_singletonB octA octB sp qA
      ⟨⟨0, 1⟩, ⟨1, 1⟩, true, d, v⟩
    rw [observeLoop] at h
    rcases eq_or_lt_of_le hdD with hdd | hdd
    · subst hdd
      have hdieq : did = di := by
        rw [hdid] at hdi
        exact Option.some.inj hdi
      subst hdieq
      have hmem : (⟨octB.makeCoord sp.centre j did, DirectionBitmap.all, v⟩ : Emit) ∈
          (observeRound octA octB sp qA [⟨⟨0, 1⟩, ⟨1, 1⟩, true, d, v⟩]).2.2 :=
        hround.2 _ (hscan.2.1 j hj0 hjle hir hsee hjD)
      split at h
      · cases h; exact hmem
      · split at h
        · cases h
        · cases h; exact List.mem_append_left _ hmem
    · have hnext : (observeRound octA octB sp qA
          [⟨⟨0, 1⟩, ⟨1, 1⟩, true, d, v⟩]).2.1 =
          [⟨⟨0, 1⟩, ⟨1, 1⟩, true, d + 1, v⟩] := by
        rw [hround.1, hscan.1]
      split at h
      · rename_i hemp
        simp only [Bool.and_eq_true, List.isEmpty_iff, hnext] at hemp
        cases hemp.2
      · split at h
        · cases h
        · rename_i rest hrest
          cases h
          apply List.mem_append_right
          rw [hnext] at hrest
          exact ih (d + 1) _ rest (by omega) (by omega) hrest di j hdi hj0 hjle
            hjD hsee hir

/-- On a transparent grid the shared diagonal cell of a pair, reached in
range, is reported by the driver loop from all directions with the initial
visibility. -/
theorem observeLoop_transparent_corner (octA octB : Octant) (sp : StaticParams)
    (v D : Int) (hv : 0 < v) (hop : ∀ c, sp.opacity c = 0)
    (hA : octantOk octA sp D) (hB : octantOk octB sp D)
    (hlA : D ≤ octA.lateralMax sp.centre) (hlB : D ≤ octB.lateralMax sp.centre) :
    ∀ (fuel : Nat) (d : Int) (out : List Emit),
      1 ≤ d → d ≤ D →
      observeLoop octA octB sp fuel [⟨⟨0, 1⟩, ⟨1, 1⟩, true, d, v⟩]
        [⟨⟨0, 1⟩, ⟨1, 1⟩, true, d, v⟩] = some out →
      ∀ diA diB : Int, octA.depthIndex sp.centre D = some diA →
        octB.depthIndex sp.centre D = some diB →
        octA.makeCoord sp.centre D diA = octB.makeCoord sp.centre D diB →
        sp.inRange ((octA.makeCoord sp.centre D diA).sub sp.centre) = true →
        (⟨octA.makeCoord sp.centre D diA, DirectionBitmap.all, v⟩ : Emit) ∈ out := by
  intro fuel
  induction fuel with
  | zero => intro d out _ _ h; simp [observeLoop] at h
  | succ fuel ih =>
    intro d out hd1 hdD h diA diB hdiA hdiB hcc hir
    obtain ⟨hlmA, hrowsA⟩ := hA
    obtain ⟨hlmB, hrowsB⟩ := hB
    obtain ⟨didA, hdidA, hnbdA⟩ := hrowsA d hd1 hdD
    obtain ⟨didB, hdidB, hnbdB⟩ := hrowsB d hd1 hdD
    have hscanA := scan_transparent octA sp d didA v hv hop hdidA hlmA hd1 hnbdA
    have hscanB := scan_transparent octB sp d didB v hv hop hdidB hlmB hd1 hnbdB
    rw [observeLoop] at h
    rcases eq_or_lt_of_le hdD with hdd | hdd
    · subst hdd
      have hdieqA : didA = diA := by rw [hdidA] at hdiA; exact Option.some.inj hdiA
      have hdieqB : didB = diB := by rw [hdidB] at hdiB; exact Option.some.inj hdiB
      rw [← hdieqA, ← hdieqB] at hcc
      rw [← hdieqA] at hir ⊢
      have hcA := hscanA.2.2 hlA hir
      have hcB := hscanB.2.2 hlB (by rw [← hcc]; exact hir)
      rw [hcc] at hcA
      have hmem := observeRound_corner_all octA octB sp
        ⟨⟨0, 1⟩, ⟨1, 1⟩, true, d, v⟩ ⟨⟨0, 1⟩, ⟨1, 1⟩, true, d, v⟩
        (octB.makeCoord sp.centre d didB) v hv hcA hcB
      rw [← hcc] at hmem
      split at h
      · cases h; exact hmem
      · split at h
        · cases h
        · cases h; exact List.mem_append_left _ hmem
    · have hroundA := observeRound_singletonA octA octB sp
        ⟨⟨0, 1⟩, ⟨1, 1⟩, true, d, v⟩ [⟨⟨0, 1⟩, ⟨1, 1⟩, true, d, v⟩]
      have hroundB := observeRound_singletonB octA octB sp
        [⟨⟨0, 1⟩, ⟨1, 1⟩, true, d, v⟩] ⟨⟨0, 1⟩, ⟨1, 1⟩, true, d, v⟩
      have hnextA : (observeRound octA octB sp [⟨⟨0, 1⟩, ⟨1, 1⟩, true, d, v⟩]
          [⟨⟨0, 1⟩, ⟨1, 1⟩, true, d, v⟩]).1 =
          [⟨⟨0, 1⟩, ⟨1, 1⟩, true, d + 1, v⟩] := by
        rw [hroundA.1, hscanA.1]
      have hnextB : (observeRound octA octB sp [⟨⟨0, 1⟩, ⟨1, 1⟩, true, d, v⟩]
          [⟨⟨0, 1⟩, ⟨1, 1⟩, true, d, v⟩]).2.1 =
          [⟨⟨0, 1⟩, ⟨1, 1⟩, true, d + 1, v⟩] := by
        rw [hroundB.1, hscanB.1]
      split at h
      · rename_i hemp
        simp only [Bool.and_eq_true, List.isEmpty_iff, hnextA] at hemp
        cases hemp.1
      · split at h
        · cases h
        · rename_i rest hrest
          cases h
          apply List.mem_append_right
          rw [hnextA, hnextB] at hrest
          exact ih (d + 1) rest (by omega) (by omega) hrest diA diB hdiA hdiB hcc hir

/-- Unconditionally, every pushed child interval carries a positive
visibility budget (the guarded subtraction saturates at zero and opaque
cells stop the interval). -/
theorem scanLoop_pushes_pos (octant : Octant) (sp : StaticParams)
    (maxGradient : Gradient) (depth depthIndex lateralMin lateralMax visibility : Int) :
    ∀ (fuel : Nat) (lateralIndex : Int) (minGradient : Gradient)
      (minInclusive : Bool) (prevVisibility : Int) (prevOpaque : Bool),
      (lateralIndex ≠ lateralMin → prevOpaque = false → 0 < prevVisibility) →
      ∀ q ∈ (scanLoop octant sp maxGradient depth depthIndex lateralMin lateralMax
          visibility fuel lateralIndex minGradient minInclusive prevVisibility
          prevOpaque).1,
        0 < q.visibility := by
  intro fuel
  induction fuel with
  | zero => intro l minG minInc pv po _ q hq; simp [scanLoop_zero] at hq
  | succ fuel ih =>
    intro l minG minInc pv po hprev q hq
    rw [scanLoop_succ] at hq
    split at hq
    · simp at hq
    · set rc := scanLoopCell octant sp maxGradient depth depthIndex lateralMin lateralMax
        visibility l minG minInc pv po with hrc
      rcases scanLoopStep_pushes _ _ q hq with hq | hq
      · have hcell := scanCell_pushes_mem octant maxGradient depth lateralMin lateralMax
          visibility minG minInc pv po l (octant.makeCoord sp.centre l depthIndex)
          (sp.opacity (octant.makeCoord sp.centre l depthIndex))
          (sp.inRange ((octant.makeCoord sp.centre l depthIndex).sub sp.centre)) q
          (by rw [hrc] at hq; exact hq)
        rcases hcell.2 with ⟨hne, hpo, hv, _⟩ | ⟨_, hop, hv, _⟩
        · rw [hv]; exact hprev hne hpo
        · rw [hv]; exact stepVisibility_pos _ _ hop
      · have hstate := scanCell_state_eq octant maxGradient depth lateralMin lateralMax
          visibility minG minInc pv po l (octant.makeCoord sp.centre l depthIndex)
          (sp.opacity (octant.makeCoord sp.centre l depthIndex))
          (sp.inRange ((octant.makeCoord sp.centre l depthIndex).sub sp.centre))
        refine ih (l + 1) rc.minGradient rc.minInclusive rc.curVisibility rc.curOpaque
          ?_ q hq
        intro _ hop
        rw [hrc] at hop ⊢
        unfold scanLoopCell at hop ⊢
        rw [hstate.2.2.1]
        rw [hstate.2.2.2] at hop
        exact stepVisibility_pos _ _ hop

theorem scan_pushes_pos (octant : Octant) (sp : StaticParams) (params : ScanParams) :
    ∀ q ∈ (scan octant sp params).1, 0 < q.visibility := by
  intro q hq
  cases hdi : octant.depthIndex sp.centre params.depth with
  | none => rw [scan_eq_none octant sp params hdi] at hq; simp at hq
  | some di =>
    rw [scan_eq_some octant sp params di hdi] at hq
    exact scanLoop_pushes_pos octant sp _ _ _ _ _ _ _ _ _ _ _ _
      (fun hne => absurd rfl hne) q hq

/-- `for_each` reports the origin first, and every other sink invocation is
in vision range. -/
theorem forEachEmits_cons_inRange (centre : Coord) (width height : Int)
    (opacity : Coord → Int) (inRange : Coord → Bool) (initialVisibility : Int) :
    ∃ rest, forEachEmits centre width height opacity inRange initialVisibility =
      ⟨centre, DirectionBitmap.all, initialVisibility⟩ :: rest ∧
      ∀ e ∈ rest, inRange (e.coord.sub centre) = true := by
  obtain ⟨e1, e2, e3, e4, he1, he2, he3, he4, heq⟩ :=
    forEach_parts centre width height opacity inRange initialVisibility
  refine ⟨e1 ++ e2 ++ e3 ++ e4, by unfold forEachEmits; rw [heq]; rfl, ?_⟩
  intro e he
  unfold observeOctant at he1 he2 he3 he4
  rcases List.mem_append.mp he with he | he
  · rcases List.mem_append.mp he with he | he
    · rcases List.mem_append.mp he with he | he
      · exact observeLoop_emits_inRange _ _ _ _ _ _ _ he1 e he
      · exact observeLoop_emits_inRange _ _ _ _ _ _ _ he2 e he
    · exact observeLoop_emits_inRange _ _ _ _ _ _ _ he3 e he
  · exact observeLoop_emits_inRange _ _ _ _ _ _ _ he4 e he

/-- The folded corner accumulator holds the union of the folded bitmaps and
the maximum of the folded visibilities. -/
theorem foldl_cornerFold_union_max (cs : List CornerInfo) :
    ∀ acc : CornerAcc,
      (cs.foldl cornerFold acc).bitmap =
        cs.foldl (fun b ci => b.or ci.bitmap) acc.bitmap ∧
      (cs.foldl cornerFold acc).visibility =
        cs.foldl (fun m ci => max m ci.visibility) acc.visibility := by
  induction cs with
  | nil => intro acc; exact ⟨rfl, rfl⟩
  | cons ci rest ih =>
    intro acc
    simp only [List.foldl_cons]
    have h := ih (cornerFold acc ci)
    refine ⟨h.1.trans ?_, h.2.trans ?_⟩
    · rfl
    · congr 1
      unfold cornerFold
      simp only
      split
      · exact (max_eq_right (le_of_lt (by assumption))).symm
      · exact (max_eq_left (by omega)).symm

/-- The sink invocations of one driver round: the two queues' own
invocations followed by at most one corner invocation, built by
reconciling the fold of both queues' corner observations. -/
theorem observeRound_corner_emit (octA octB : Octant) (sp : StaticParams)
    (queueA queueB : List ScanParams) :
    (observeRound octA octB sp queueA queueB).2.2 =
      (runQueue octA sp queueA ⟨DirectionBitmap.empty, none, 0⟩).2.1 ++
      (runQueue octB sp queueB
        (runQueue octA sp queueA ⟨DirectionBitmap.empty, none, 0⟩).2.2).2.1 ++
      (match ((scanCorners octA sp queueA ++ scanCorners octB sp queueB).foldl
          cornerFold ⟨DirectionBitmap.empty, none, 0⟩).coord with
       | none => []
       | some c =>
         [⟨c,
           reconcile ((scanCorners octA sp queueA ++ scanCorners octB sp queueB).foldl
             cornerFold ⟨DirectionBitmap.empty, none, 0⟩).bitmap,
           ((scanCorners octA sp queueA ++ scanCorners octB sp queueB).foldl
             cornerFold ⟨DirectionBitmap.empty, none, 0⟩).visibility⟩]) := by
  unfold observeRound
  simp only
  have hacc : (runQueue octB sp queueB
      (runQueue octA sp queueA ⟨DirectionBitmap.empty, none, 0⟩).2.2).2.2 =
      (scanCorners octA sp queueA ++ scanCorners octB sp queueB).foldl
        cornerFold ⟨DirectionBitmap.empty, none, 0⟩ := by
    rw [runQueue_corner, runQueue_corner, List.foldl_append]
  rw [hacc]

/-- The corner-reconciliation mask, in positive form: keep the bitmap when
it is full or misses the cardinals entirely, otherwise mask it with the
cardinal directions. -/
theorem reconcile_spec (bm : DirectionBitmap) :
    reconcile bm =
      if bm.isFull = true ∨ (bm.and DirectionBitmap.allCardinal).isEmpty = true then bm
      else bm.and DirectionBitmap.allCardinal := by
  cases hf : bm.isFull <;>
    cases he : (bm.and DirectionBitmap.allCardinal).isEmpty <;>
    simp [reconcile, hf, he]

/-- Each of the eight octants' coordinate maps is injective in the lateral
index. -/
theorem pairOctants_makeCoord_inj (width height : Int) :
    ∀ octant ∈ pairOctants width height, ∀ (centre : Coord) (di j j' : Int),
      octant.makeCoord centre j di = octant.makeCoord centre j' di → j = j' := by
  intro octant hoct centre di j j' hco
  simp only [pairOctants, List.mem_cons, List.not_mem_nil, or_false] at hoct
  rcases hoct with rfl | rfl | rfl | rfl | rfl | rfl | rfl | rfl <;>
    simp only [TopLeft, LeftTop, RightTop, TopRight, LeftBottom, BottomLeft,
      BottomRight, RightBottom, Coord.mk.injEq] at hco <;>
    omega

/-! ### The eight octants stay in bounds for an in-bounds centre -/

theorem octantOk_TopLeft (sp : StaticParams) (D : Int)
    (h1 : 0 ≤ sp.centre.x) (h2 : sp.centre.x < sp.width)
    (h3 : sp.centre.y < sp.height) (hD : D ≤ sp.centre.y) :
    octantOk TopLeft sp D := by
  refine ⟨h1, fun s hs1 hs2 => ⟨sp.centre.y - s, ?_, ?_⟩⟩
  · unfold TopLeft; simp only; rw [if_pos (by omega)]
  · intro j hj0 hjle
    simp only [le_min_iff] at hjle
    unfold TopLeft outOfBounds at *
    simp only at *
    omega

theorem octantOk_LeftTop (sp : StaticParams) (D : Int)
    (h1 : 0 ≤ sp.centre.y) (h2 : sp.centre.y < sp.height)
    (h3 : sp.centre.x < sp.width) (hD : D ≤ sp.centre.x) :
    octantOk LeftTop sp D := by
  refine ⟨h1, fun s hs1 hs2 => ⟨sp.centre.x - s, ?_, ?_⟩⟩
  · unfold LeftTop; simp only; rw [if_pos (by omega)]
  · intro j hj0 hjle
    simp only [le_min_iff] at hjle
    unfold LeftTop outOfBounds at *
    simp only at *
    omega

theorem octantOk_TopRight (sp : StaticParams) (D : Int)
    (h1 : 0 ≤ sp.centre.x) (h2 : sp.centre.x < sp.width)
    (h3 : sp.centre.y < sp.height) (hD : D ≤ sp.centre.y) :
    octantOk (TopRight sp.width) sp D := by
  refine ⟨by unfold TopRight; simp only; omega,
    fun s hs1 hs2 => ⟨sp.centre.y - s, ?_, ?_⟩⟩
  · unfold TopRight; simp only; rw [if_pos (by omega)]
  · intro j hj0 hjle
    simp only [le_min_iff] at hjle
    unfold TopRight outOfBounds at *
    simp only at *
    omega

theorem octantOk_RightTop (sp : StaticParams) (D : Int)
    (h1 : 0 ≤ sp.centre.y) (h2 : sp.centre.y < sp.height)
    (h3 : 0 ≤ sp.centre.x) (hD : D ≤ sp.width - sp.centre.x - 1) :
    octantOk (RightTop sp.width) sp D := by
  refine ⟨h1, fun s hs1 hs2 => ⟨sp.centre.x + s, ?_, ?_⟩⟩
  · unfold RightTop; simp only; rw [if_pos (by omega)]
  · intro j hj0 hjle
    simp only [le_min_iff] at hjle
    unfold RightTop outOfBounds at *
    simp only at *
    omega

theorem octantOk_BottomLeft (sp : StaticParams) (D : Int)
    (h1 : 0 ≤ sp.centre.x) (h2 : sp.centre.x < sp.width)
    (h3 : 0 ≤ sp.centre.y) (hD : D ≤ sp.height - sp.centre.y - 1) :
    octantOk (BottomLeft sp.height) sp D := by
  refine ⟨h1, fun s hs1 hs2 => ⟨sp.centre.y + s, ?_, ?_⟩⟩
  · unfold BottomLeft; simp only; rw [if_pos (by omega)]
  · intro j hj0 hjle
    simp only [le_min_iff] at hjle
    unfold BottomLeft outOfBounds at *
    simp only at *
    omega

theorem octantOk_LeftBottom (sp : StaticParams) (D : Int)
    (h1 : 0 ≤ sp.centre.y) (h2 : sp.centre.y < sp.height)
    (h3 : sp.centre.x < sp.width) (hD : D ≤ sp.centre.x) :
    octantOk (LeftBottom sp.height) sp D := by
  refine ⟨by unfold LeftBottom; simp only; omega,
    fun s hs1 hs2 => ⟨sp.centre.x - s, ?_, ?_⟩⟩
  · unfold LeftBottom; simp only; rw [if_pos (by omega)]
  · intro j hj0 hjle
    simp only [le_min_iff] at hjle
    unfold LeftBottom outOfBounds at *
    simp only at *
    omega

theorem octantOk_BottomRight (sp : StaticParams) (D : Int)
    (h1 : 0 ≤ sp.centre.x) (h2 : sp.centre.x < sp.width)
    (h3 : 0 ≤ sp.centre.y) (hD : D ≤ sp.height - sp.centre.y - 1) :
    octantOk (BottomRight sp.width sp.height) sp D := by
  refine ⟨by unfold BottomRight; simp only; omega,
    fun s hs1 hs2 => ⟨sp.centre.y + s, ?_, ?_⟩⟩
  · unfold BottomRight; simp only; rw [if_pos (by omega)]
  · intro j hj0 hjle
    simp only [le_min_iff] at hjle
    unfold BottomRight outOfBounds at *
    simp only at *
    omega

theorem octantOk_RightBottom (sp : StaticParams) (D : Int)
    (h1 : 0 ≤ sp.centre.y) (h2 : sp.centre.y < sp.height)
    (h3 : 0 ≤ sp.centre.x) (hD : D ≤ sp.width - sp.centre.x - 1) :
    octantOk (RightBottom sp.width sp.height) sp D := by
  refine ⟨by unfold RightBottom; simp only; omega,
    fun s hs1 hs2 => ⟨sp.centre.x + s, ?_, ?_⟩⟩
  · unfold RightBottom; simp only; rw [if_pos (by omega)]
  · intro j hj0 hjle
    simp only [le_min_iff] at hjle
    unfold RightBottom outOfBounds at *
    simp only at *
    omega


set_option maxHeartbeats 1000000 in
/-- On a fully transparent grid with an in-bounds eye, `for_each` reports
every in-bounds cell within vision range, from all directions, with the
initial visibility (the origin included). -/
theorem forEach_transparent_complete (centre : Coord) (width height : Int)
    (opacity : Coord → Int) (inRange : Coord → Bool) (v : Int)
    (hop : ∀ c, opacity c = 0) (hv : 0 < v)
    (hc1 : 0 ≤ centre.x) (hc2 : centre.x < width)
    (hc3 : 0 ≤ centre.y) (hc4 : centre.y < height)
    (c : Coord) (hx1 : 0 ≤ c.x) (hx2 : c.x < width)
    (hy1 : 0 ≤ c.y) (hy2 : c.y < height)
    (hir : inRange (c.sub centre) = true) :
    (⟨c, DirectionBitmap.all, v⟩ : Emit) ∈
      forEachEmits centre width height opacity inRange v := by
  obtain ⟨cx, cy⟩ := c
  obtain ⟨ox, oy⟩ := centre
  simp only at hx1 hx2 hy1 hy2 hc1 hc2 hc3 hc4
  obtain ⟨e1, e2, e3, e4, he1, he2, he3, he4, heq⟩ :=
    forEach_parts ⟨ox, oy⟩ width height opacity inRange v
  have hemits : forEachEmits ⟨ox, oy⟩ width height opacity inRange v =
      ⟨⟨ox, oy⟩, DirectionBitmap.all, v⟩ :: (e1 ++ e2 ++ e3 ++ e4) := by
    unfold forEachEmits; rw [heq]; rfl
  rw [hemits]
  have hm1 : ∀ e : Emit, e ∈ e1 →
      e ∈ (⟨⟨ox, oy⟩, DirectionBitmap.all, v⟩ :: (e1 ++ e2 ++ e3 ++ e4)) := fun e he =>
    List.mem_cons_of_mem _ (List.mem_append_left _ (List.mem_append_left _
      (List.mem_append_left _ he)))
  have hm2 : ∀ e : Emit, e ∈ e2 →
      e ∈ (⟨⟨ox, oy⟩, DirectionBitmap.all, v⟩ :: (e1 ++ e2 ++ e3 ++ e4)) := fun e he =>
    List.mem_cons_of_mem _ (List.mem_append_left _ (List.mem_append_left _
      (List.mem_append_right _ he)))
  have hm3 : ∀ e : Emit, e ∈ e3 →
      e ∈ (⟨⟨ox, oy⟩, DirectionBitmap.all, v⟩ :: (e1 ++ e2 ++ e3 ++ e4)) := fun e he =>
    List.mem_cons_of_mem _ (List.mem_append_left _ (List.mem_append_right _ he))
  have hm4 : ∀ e : Emit, e ∈ e4 →
      e ∈ (⟨⟨ox, oy⟩, DirectionBitmap.all, v⟩ :: (e1 ++ e2 ++ e3 ++ e4)) := fun e he =>
    List.mem_cons_of_mem _ (List.mem_append_right _ he)
  by_cases hcc : (⟨cx, cy⟩ : Coord) = ⟨ox, oy⟩
  · rw [hcc]; exact List.mem_cons_self _ _
  simp only [Coord.mk.injEq, not_and] at hcc
  rcases lt_trichotomy cy oy with hdy | hdy | hdy
  · rcases lt_trichotomy cx ox with hdx | hdx | hdx
    · rcases lt_trichotomy (ox - cx) (oy - cy) with hd | hd | hd
      · -- up-left, depth-dominant: TopLeft (first of pair 1)
        have hok := octantOk_TopLeft
          ⟨⟨ox, oy⟩, inRange, opacity, width, height, v⟩ (oy - cy) hc1 hc2 hc4
          (by show oy - cy ≤ oy; omega)
        have hdi : TopLeft.depthIndex (⟨ox, oy⟩ : Coord) (oy - cy) =
            some (oy - (oy - cy)) := by
          show (if 0 ≤ oy - (oy - cy) then some (oy - (oy - cy)) else none) =
            some (oy - (oy - cy))
          rw [if_pos (by omega)]
        have hcoord : TopLeft.makeCoord (⟨ox, oy⟩ : Coord) (ox - cx) (oy - (oy - cy)) =
            (⟨cx, cy⟩ : Coord) := by
          show (⟨ox - (ox - cx), oy - (oy - cy)⟩ : Coord) = ⟨cx, cy⟩
          simp only [Coord.mk.injEq]
          omega
        have happ := observeLoop_transparent_emitA TopLeft LeftTop
          ⟨⟨ox, oy⟩, inRange, opacity, width, height, v⟩ v (oy - cy) hv hop hok
          (forEachBound ⟨ox, oy⟩ width height) 1 [ScanParams.octantBase v] e1
          (le_refl 1) (by omega) he1 (oy - (oy - cy)) (ox - cx) hdi (by omega)
          (le_min_iff.mpr ⟨by omega, by show ox - cx ≤ ox; omega⟩) (by omega)
          (by show ((ox - cx) != 0) = true; simp only [bne_iff_ne]; omega)
          (by show inRange ((TopLeft.makeCoord ⟨ox, oy⟩ (ox - cx)
                (oy - (oy - cy))).sub ⟨ox, oy⟩) = true
              rw [hcoord]; exact hir)
        have happ2 : (⟨TopLeft.makeCoord ⟨ox, oy⟩ (ox - cx) (oy - (oy - cy)),
            DirectionBitmap.all, v⟩ : Emit) ∈ e1 := happ
        rw [hcoord] at happ2
        exact hm1 _ happ2
      · -- up-left diagonal: corner of pair 1
        have hokA := octantOk_TopLeft
          ⟨⟨ox, oy⟩, inRange, opacity, width, height, v⟩ (oy - cy) hc1 hc2 hc4
          (by show oy - cy ≤ oy; omega)
        have hokB := octantOk_LeftTop
          ⟨⟨ox, oy⟩, inRange, opacity, width, height, v⟩ (oy - cy) hc3 hc4 hc2
          (by show oy - cy ≤ ox; omega)
        have hdiA : TopLeft.depthIndex (⟨ox, oy⟩ : Coord) (oy - cy) =
            some (oy - (oy - cy)) := by
          show (if 0 ≤ oy - (oy - cy) then some (oy - (oy - cy)) else none) =
            some (oy - (oy - cy))
          rw [if_pos (by omega)]
        have hdiB : LeftTop.depthIndex (⟨ox, oy⟩ : Coord) (oy - cy) =
            some (ox - (oy - cy)) := by
          show (if 0 ≤ ox - (oy - cy) then some (ox - (oy - cy)) else none) =
            some (ox - (oy - cy))
          rw [if_pos (by omega)]
        have hcc2 : TopLeft.makeCoord (⟨ox, oy⟩ : Coord) (oy - cy) (oy - (oy - cy)) =
            LeftTop.makeCoord (⟨ox, oy⟩ : Coord) (oy - cy) (ox - (oy - cy)) := by
          show (⟨ox - (oy - cy), oy - (oy - cy)⟩ : Coord) = ⟨ox - (oy - cy), oy - (oy - cy)⟩
          rfl
        have hcoord : TopLeft.makeCoord (⟨ox, oy⟩ : Coord) (oy - cy) (oy - (oy - cy)) =
            (⟨cx, cy⟩ : Coord) := by
          show (⟨ox - (oy - cy), oy - (oy - cy)⟩ : Coord) = ⟨cx, cy⟩
          simp only [Coord.mk.injEq]
          omega
        have happ := observeLoop_transparent_corner TopLeft LeftTop
          ⟨⟨ox, oy⟩, inRange, opacity, width, height, v⟩ v (oy - cy) hv hop hokA hokB
          (by show oy - cy ≤ ox; omega) (by show oy - cy ≤ oy; omega)
          (forEachBound ⟨ox, oy⟩ width height) 1 e1 (le_refl 1) (by omega) he1
          (oy - (oy - cy)) (ox - (oy - cy)) hdiA hdiB hcc2
          (by show inRange ((TopLeft.makeCoord ⟨ox, oy⟩ (oy - cy)
                (oy - (oy - cy))).sub ⟨ox, oy⟩) = true
              rw [hcoord]; exact hir)
        have happ2 : (⟨TopLeft.makeCoord ⟨ox, oy⟩ (oy - cy) (oy - (oy - cy)),
            DirectionBitmap.all, v⟩ : Emit) ∈ e1 := happ
        rw [hcoord] at happ2
        exact hm1 _ happ2
      · -- up-left, lateral-dominant: LeftTop (second of pair 1)
        have hok := octantOk_LeftTop
          ⟨⟨ox, oy⟩, inRange, opacity, width, height, v⟩ (ox - cx) hc3 hc4 hc2
          (by show ox - cx ≤ ox; omega)
        have hdi : LeftTop.depthIndex (⟨ox, oy⟩ : Coord) (ox - cx) =
            some (ox - (ox - cx)) := by
          show (if 0 ≤ ox - (ox - cx) then some (ox - (ox - cx)) else none) =
            some (ox - (ox - cx))
          rw [if_pos (by omega)]
        have hcoord : LeftTop.makeCoord (⟨ox, oy⟩ : Coord) (oy - cy) (ox - (ox - cx)) =
            (⟨cx, cy⟩ : Coord) := by
          show (⟨ox - (ox - cx), oy - (oy - cy)⟩ : Coord) = ⟨cx, cy⟩
          simp only [Coord.mk.injEq]
          omega
        have happ := observeLoop_transparent_emitB TopLeft LeftTop
          ⟨⟨ox, oy⟩, inRange, opacity, width, height, v⟩ v (ox - cx) hv hop hok
          (forEachBound ⟨ox, oy⟩ width height) 1 [ScanParams.octantBase v] e1
          (le_refl 1) (by omega) he1 (ox - (ox - cx)) (oy - cy) hdi (by omega)
          (le_min_iff.mpr ⟨by omega, by show oy - cy ≤ oy; omega⟩) (by omega)
          rfl
          (by show inRange ((LeftTop.makeCoord ⟨ox, oy⟩ (oy - cy)
                (ox - (ox - cx))).sub ⟨ox, oy⟩) = true
              rw [hcoord]; exact hir)
        have happ2 : (⟨LeftTop.makeCoord ⟨ox, oy⟩ (oy - cy) (ox - (ox - cx)),
            DirectionBitmap.all, v⟩ : Emit) ∈ e1 := happ
        rw [hcoord] at happ2
        exact hm1 _ happ2
    · -- straight up or up-right depth-dominant: TopRight (second of pair 2)
        have hok := octantOk_TopRight
          ⟨⟨ox, oy⟩, inRange, opacity, width, height, v⟩ (oy - cy) hc1 hc2 hc4
          (by show oy - cy ≤ oy; omega)
        have hdi : (TopRight width).depthIndex (⟨ox, oy⟩ : Coord) (oy - cy) =
            some (oy - (oy - cy)) := by
          show (if 0 ≤ oy - (oy - cy) then some (oy - (oy - cy)) else none) =
            some (oy - (oy - cy))
          rw [if_pos (by omega)]
        have hcoord : (TopRight width).makeCoord (⟨ox, oy⟩ : Coord) (cx - ox) (oy - (oy - cy)) =
            (⟨cx, cy⟩ : Coord) := by
          show (⟨ox + (cx - ox), oy - (oy - cy)⟩ : Coord) = ⟨cx, cy⟩
          simp only [Coord.mk.injEq]
          omega
        have happ := observeLoop_transparent_emitB (RightTop width) (TopRight width)
          ⟨⟨ox, oy⟩, inRange, opacity, width, height, v⟩ v (oy - cy) hv hop hok
          (forEachBound ⟨ox, oy⟩ width height) 1 [ScanParams.octantBase v] e2
          (le_refl 1) (by omega) he2 (oy - (oy - cy)) (cx - ox) hdi (by omega)
          (le_min_iff.mpr ⟨by omega, by show cx - ox ≤ width - ox - 1; omega⟩) (by omega)
          rfl
          (by show inRange (((TopRight width).makeCoord ⟨ox, oy⟩ (cx - ox)
                (oy - (oy - cy))).sub ⟨ox, oy⟩) = true
              rw [hcoord]; exact hir)
        have happ2 : (⟨(TopRight width).makeCoord ⟨ox, oy⟩ (cx - ox) (oy - (oy - cy)),
            DirectionBitmap.all, v⟩ : Emit) ∈ e2 := happ
        rw [hcoord] at happ2
        exact hm2 _ happ2
    · rcases lt_trichotomy (cx - ox) (oy - cy) with hd | hd | hd
      · -- straight up or up-right depth-dominant: TopRight (second of pair 2)
        have hok := octantOk_TopRight
          ⟨⟨ox, oy⟩, inRange, opacity, width, height, v⟩ (oy - cy) hc1 hc2 hc4
          (by show oy - cy ≤ oy; omega)
        have hdi : (TopRight width).depthIndex (⟨ox, oy⟩ : Coord) (oy - cy) =
            some (oy - (oy - cy)) := by
          show (if 0 ≤ oy - (oy - cy) then some (oy - (oy - cy)) else none) =
            some (oy - (oy - cy))
          rw [if_pos (by omega)]
        have hcoord : (TopRight width).makeCoord (⟨ox, oy⟩ : Coord) (cx - ox) (oy - (oy - cy)) =
            (⟨cx, cy⟩ : Coord) := by
          show (⟨ox + (cx - ox), oy - (oy - cy)⟩ : Coord) = ⟨cx, cy⟩
          simp only [Coord.mk.injEq]
          omega
        have happ := observeLoop_transparent_emitB (RightTop width) (TopRight width)
          ⟨⟨ox, oy⟩, inRange, opacity, width, height, v⟩ v (oy - cy) hv hop hok
          (forEachBound ⟨ox, oy⟩ width height) 1 [ScanParams.octantBase v] e2
          (le_refl 1) (by omega) he2 (oy - (oy - cy)) (cx - ox) hdi (by omega)
          (le_min_iff.mpr ⟨by omega, by show cx - ox ≤ width - ox - 1; omega⟩) (by omega)
          rfl
          (by show inRange (((TopRight width).makeCoord ⟨ox, oy⟩ (cx - ox)
                (oy - (oy - cy))).sub ⟨ox, oy⟩) = true
              rw [hcoord]; exact hir)
        have happ2 : (⟨(TopRight width).makeCoord ⟨ox, oy⟩ (cx - ox) (oy - (oy - cy)),
            DirectionBitmap.all, v⟩ : Emit) ∈ e2 := happ
        rw [hcoord] at happ2
        exact hm2 _ happ2
      · -- up-right diagonal: corner of pair 2
        have hokA := octantOk_RightTop
          ⟨⟨ox, oy⟩, inRange, opacity, width, height, v⟩ (cx - ox) hc3 hc4 hc1
          (by show cx - ox ≤ width - ox - 1; omega)
        have hokB := octantOk_TopRight
          ⟨⟨ox, oy⟩, inRange, opacity, width, height, v⟩ (cx - ox) hc1 hc2 hc4
          (by show cx - ox ≤ oy; omega)
        have hdiA : (RightTop width).depthIndex (⟨ox, oy⟩ : Coord) (cx - ox) =
            some (ox + (cx - ox)) := by
          show (if ox + (cx - ox) < width then some (ox + (cx - ox)) else none) =
            some (ox + (cx - ox))
          rw [if_pos (by omega)]
        have hdiB : (TopRight width).depthIndex (⟨ox, oy⟩ : Coord) (cx - ox) =
            some (oy - (cx - ox)) := by
          show (if 0 ≤ oy - (cx - ox) then some (oy - (cx - ox)) else none) =
            some (oy - (cx - ox))
          rw [if_pos (by omega)]
        have hcc2 : (RightTop width).makeCoord (⟨ox, oy⟩ : Coord) (cx - ox) (ox + (cx - ox)) =
            (TopRight width).makeCoord (⟨ox, oy⟩ : Coord) (cx - ox) (oy - (cx - ox)) := by
          show (⟨ox + (cx - ox), oy - (cx - ox)⟩ : Coord) = ⟨ox + (cx - ox), oy - (cx - ox)⟩
          rfl
        have hcoord : (RightTop width).makeCoord (⟨ox, oy⟩ : Coord) (cx - ox) (ox + (cx - ox)) =
            (⟨cx, cy⟩ : Coord) := by
          show (⟨ox + (cx - ox), oy - (cx - ox)⟩ : Coord) = ⟨cx, cy⟩
          simp only [Coord.mk.injEq]
          omega
        have happ := observeLoop_transparent_corner (RightTop width) (TopRight width)
          ⟨⟨ox, oy⟩, inRange, opacity, width, height, v⟩ v (cx - ox) hv hop hokA hokB
          (by show cx - ox ≤ oy; omega) (by show cx - ox ≤ width - ox - 1; omega)
          (forEachBound ⟨ox, oy⟩ width height) 1 e2 (le_refl 1) (by omega) he2
          (ox + (cx - ox)) (oy - (cx - ox)) hdiA hdiB hcc2
          (by show inRange (((RightTop width).makeCoord ⟨ox, oy⟩ (cx - ox)
                (ox + (cx - ox))).sub ⟨ox, oy⟩) = true
              rw [hcoord]; exact hir)
        have happ2 : (⟨(RightTop width).makeCoord ⟨ox, oy⟩ (cx - ox) (ox + (cx - ox)),
            DirectionBitmap.all, v⟩ : Emit) ∈ e2 := happ
        rw [hcoord] at happ2
        exact hm2 _ happ2
      · -- up-right, lateral-dominant: RightTop (first of pair 2)
        have hok := octantOk_RightTop
          ⟨⟨ox, oy⟩, inRange, opacity, width, height, v⟩ (cx - ox) hc3 hc4 hc1
          (by show cx - ox ≤ width - ox - 1; omega)
        have hdi : (RightTop width).depthIndex (⟨ox, oy⟩ : Coord) (cx - ox) =
            some (ox + (cx - ox)) := by
          show (if ox + (cx - ox) < width then some (ox + (cx - ox)) else none) =
            some (ox + (cx - ox))
          rw [if_pos (by omega)]
        have hcoord : (RightTop width).makeCoord (⟨ox, oy⟩ : Coord) (oy - cy) (ox + (cx - ox)) =
            (⟨cx, cy⟩ : Coord) := by
          show (⟨ox + (cx - ox), oy - (oy - cy)⟩ : Coord) = ⟨cx, cy⟩
          simp only [Coord.mk.injEq]
          omega
        have happ := observeLoop_transparent_emitA (RightTop width) (TopRight width)
          ⟨⟨ox, oy⟩, inRange, opacity, width, height, v⟩ v (cx - ox) hv hop hok
          (forEachBound ⟨ox, oy⟩ width height) 1 [ScanParams.octantBase v] e2
          (le_refl 1) (by omega) he2 (ox + (cx - ox)) (oy - cy) hdi (by omega)
          (le_min_iff.mpr ⟨by omega, by show oy - cy ≤ oy; omega⟩) (by omega)
          (by show ((oy - cy) != 0) = true; simp only [bne_iff_ne]; omega)
          (by show inRange (((RightTop width).makeCoord ⟨ox, oy⟩ (oy - cy)
                (ox + (cx - ox))).sub ⟨ox, oy⟩) = true
              rw [hcoord]; exact hir)
        have happ2 : (⟨(RightTop width).makeCoord ⟨ox, oy⟩ (oy - cy) (ox + (cx - ox)),
            DirectionBitmap.all, v⟩ : Emit) ∈ e2 := happ
        rw [hcoord] at happ2
        exact hm2 _ happ2
  · rcases lt_trichotomy cx ox with hdx | hdx | hdx
    · -- up-left, lateral-dominant: LeftTop (second of pair 1)
        have hok := octantOk_LeftTop
          ⟨⟨ox, oy⟩, inRange, opacity, width, height, v⟩ (ox - cx) hc3 hc4 hc2
          (by show ox - cx ≤ ox; omega)
        have hdi : LeftTop.depthIndex (⟨ox, oy⟩ : Coord) (ox - cx) =
            some (ox - (ox - cx)) := by
          show (if 0 ≤ ox - (ox - cx) then some (ox - (ox - cx)) else none) =
            some (ox - (ox - cx))
          rw [if_pos (by omega)]
        have hcoord : LeftTop.makeCoord (⟨ox, oy⟩ : Coord) (oy - cy) (ox - (ox - cx)) =
            (⟨cx, cy⟩ : Coord) := by
          show (⟨ox - (ox - cx), oy - (oy - cy)⟩ : Coord) = ⟨cx, cy⟩
          simp only [Coord.mk.injEq]
          omega
        have happ := observeLoop_transparent_emitB TopLeft LeftTop
          ⟨⟨ox, oy⟩, inRange, opacity, width, height, v⟩ v (ox - cx) hv hop hok
          (forEachBound ⟨ox, oy⟩ width height) 1 [ScanParams.octantBase v] e1
          (le_refl 1) (by omega) he1 (ox - (ox - cx)) (oy - cy) hdi (by omega)
          (le_min_iff.mpr ⟨by omega, by show oy - cy ≤ oy; omega⟩) (by omega)
          rfl
          (by show inRange ((LeftTop.makeCoord ⟨ox, oy⟩ (oy - cy)
                (ox - (ox - cx))).sub ⟨ox, oy⟩) = true
              rw [hcoord]; exact hir)
        have happ2 : (⟨LeftTop.makeCoord ⟨ox, oy⟩ (oy - cy) (ox - (ox - cx)),
            DirectionBitmap.all, v⟩ : Emit) ∈ e1 := happ
        rw [hcoord] at happ2
        exact hm1 _ happ2
    · exact absurd hdy (hcc hdx)
    · -- straight right or down-right lateral-dominant: RightBottom (second of pair 4)
        have hok := octantOk_RightBottom
          ⟨⟨ox, oy⟩, inRange, opacity, width, height, v⟩ (cx - ox) hc3 hc4 hc1
          (by show cx - ox ≤ width - ox - 1; omega)
        have hdi : (RightBottom width height).depthIndex (⟨ox, oy⟩ : Coord) (cx - ox) =
            some (ox + (cx - ox)) := by
          show (if ox + (cx - ox) < width then some (ox + (cx - ox)) else none) =
            some (ox + (cx - ox))
          rw [if_pos (by omega)]
        have hcoord : (RightBottom width height).makeCoord (⟨ox, oy⟩ : Coord) (cy - oy) (ox + (cx - ox)) =
            (⟨cx, cy⟩ : Coord) := by
          show (⟨ox + (cx - ox), oy + (cy - oy)⟩ : Coord) = ⟨cx, cy⟩
          simp only [Coord.mk.injEq]
          omega
        have happ := observeLoop_transparent_emitB (BottomRight width height) (RightBottom width height)
          ⟨⟨ox, oy⟩, inRange, opacity, width, height, v⟩ v (cx - ox) hv hop hok
          (forEachBound ⟨ox, oy⟩ width height) 1 [ScanParams.octantBase v] e4
          (le_refl 1) (by omega) he4 (ox + (cx - ox)) (cy - oy) hdi (by omega)
          (le_min_iff.mpr ⟨by omega, by show cy - oy ≤ height - oy - 1; omega⟩) (by omega)
          rfl
          (by show inRange (((RightBottom width height).makeCoord ⟨ox, oy⟩ (cy - oy)
                (ox + (cx - ox))).sub ⟨ox, oy⟩) = true
              rw [hcoord]; exact hir)
        have happ2 : (⟨(RightBottom width height).makeCoord ⟨ox, oy⟩ (cy - oy) (ox + (cx - ox)),
            DirectionBitmap.all, v⟩ : Emit) ∈ e4 := happ
        rw [hcoord] at happ2
        exact hm4 _ happ2
  · rcases lt_trichotomy cx ox with hdx | hdx | hdx
    · rcases lt_trichotomy (ox - cx) (cy - oy) with hd | hd | hd
      · -- down-left or straight down, depth-dominant: BottomLeft (second of pair 3)
        have hok := octantOk_BottomLeft
          ⟨⟨ox, oy⟩, inRange, opacity, width, height, v⟩ (cy - oy) hc1 hc2 hc3
          (by show cy - oy ≤ height - oy - 1; omega)
        have hdi : (BottomLeft height).depthIndex (⟨ox, oy⟩ : Coord) (cy - oy) =
            some (oy + (cy - oy)) := by
          show (if oy + (cy - oy) < height then some (oy + (cy - oy)) else none) =
            some (oy + (cy - oy))
          rw [if_pos (by omega)]
        have hcoord : (BottomLeft height).makeCoord (⟨ox, oy⟩ : Coord) (ox - cx) (oy + (cy - oy)) =
            (⟨cx, cy⟩ : Coord) := by
          show (⟨ox - (ox - cx), oy + (cy - oy)⟩ : Coord) = ⟨cx, cy⟩
          simp only [Coord.mk.injEq]
          omega
        have happ := observeLoop_transparent_emitB (LeftBottom height) (BottomLeft height)
          ⟨⟨ox, oy⟩, inRange, opacity, width, height, v⟩ v (cy - oy) hv hop hok
          (forEachBound ⟨ox, oy⟩ width height) 1 [ScanParams.octantBase v] e3
          (le_refl 1) (by omega) he3 (oy + (cy - oy)) (ox - cx) hdi (by omega)
          (le_min_iff.mpr ⟨by omega, by show ox - cx ≤ ox; omega⟩) (by omega)
          rfl
          (by show inRange (((BottomLeft height).makeCoord ⟨ox, oy⟩ (ox - cx)
                (oy + (cy - oy))).sub ⟨ox, oy⟩) = true
              rw [hcoord]; exact hir)
        have happ2 : (⟨(BottomLeft height).makeCoord ⟨ox, oy⟩ (ox - cx) (oy + (cy - oy)),
            DirectionBitmap.all, v⟩ : Emit) ∈ e3 := happ
        rw [hcoord] at happ2
        exact hm3 _ happ2
      · -- down-left diagonal: corner of pair 3
        have hokA := octantOk_LeftBottom
          ⟨⟨ox, oy⟩, inRange, opacity, width, height, v⟩ (cy - oy) hc3 hc4 hc2
          (by show cy - oy ≤ ox; omega)
        have hokB := octantOk_BottomLeft
          ⟨⟨ox, oy⟩, inRange, opacity, width, height, v⟩ (cy - oy) hc1 hc2 hc3
          (by show cy - oy ≤ height - oy - 1; omega)
        have hdiA : (LeftBottom height).depthIndex (⟨ox, oy⟩ : Coord) (cy - oy) =
            some (ox - (cy - oy)) := by
          show (if 0 ≤ ox - (cy - oy) then some (ox - (cy - oy)) else none) =
            some (ox - (cy - oy))
          rw [if_pos (by omega)]
        have hdiB : (BottomLeft height).depthIndex (⟨ox, oy⟩ : Coord) (cy - oy) =
            some (oy + (cy - oy)) := by
          show (if oy + (cy - oy) < height then some (oy + (cy - oy)) else none) =
            some (oy + (cy - oy))
          rw [if_pos (by omega)]
        have hcc2 : (LeftBottom height).makeCoord (⟨ox, oy⟩ : Coord) (cy - oy) (ox - (cy - oy)) =
            (BottomLeft height).makeCoord (⟨ox, oy⟩ : Coord) (cy - oy) (oy + (cy - oy)) := by
          show (⟨ox - (cy - oy), oy + (cy - oy)⟩ : Coord) = ⟨ox - (cy - oy), oy + (cy - oy)⟩
          rfl
        have hcoord : (LeftBottom height).makeCoord (⟨ox, oy⟩ : Coord) (cy - oy) (ox - (cy - oy)) =
            (⟨cx, cy⟩ : Coord) := by
          show (⟨ox - (cy - oy), oy + (cy - oy)⟩ : Coord) = ⟨cx, cy⟩
          simp only [Coord.mk.injEq]
          omega
        have happ := observeLoop_transparent_corner (LeftBottom height) (BottomLeft height)
          ⟨⟨ox, oy⟩, inRange, opacity, width, height, v⟩ v (cy - oy) hv hop hokA hokB
          (by show cy - oy ≤ height - oy - 1; omega) (by show cy - oy ≤ ox; omega)
          (forEachBound ⟨ox, oy⟩ width height) 1 e3 (le_refl 1) (by omega) he3
          (ox - (cy - oy)) (oy + (cy - oy)) hdiA hdiB hcc2
          (by show inRange (((LeftBottom height).makeCoord ⟨ox, oy⟩ (cy - oy)
                (ox - (cy - oy))).sub ⟨ox, oy⟩) = true
              rw [hcoord]; exact hir)
        have happ2 : (⟨(LeftBottom height).makeCoord ⟨ox, oy⟩ (cy - oy) (ox - (cy - oy)),
            DirectionBitmap.all, v⟩ : Emit) ∈ e3 := happ
        rw [hcoord] at happ2
        exact hm3 _ happ2
      · -- down-left, lateral-dominant: LeftBottom (first of pair 3)
        have hok := octantOk_LeftBottom
          ⟨⟨ox, oy⟩, inRange, opacity, width, height, v⟩ (ox - cx) hc3 hc4 hc2
          (by show ox - cx ≤ ox; omega)
        have hdi : (LeftBottom height).depthIndex (⟨ox, oy⟩ : Coord) (ox - cx) =
            some (ox - (ox - cx)) := by
          show (if 0 ≤ ox - (ox - cx) then some (ox - (ox - cx)) else none) =
            some (ox - (ox - cx))
          rw [if_pos (by omega)]
        have hcoord : (LeftBottom height).makeCoord (⟨ox, oy⟩ : Coord) (cy - oy) (ox - (ox - cx)) =
            (⟨cx, cy⟩ : Coord) := by
          show (⟨ox - (ox - cx), oy + (cy - oy)⟩ : Coord) = ⟨cx, cy⟩
          simp only [Coord.mk.injEq]
          omega
        have happ := observeLoop_transparent_emitA (LeftBottom height) (BottomLeft height)
          ⟨⟨ox, oy⟩, inRange, opacity, width, height, v⟩ v (ox - cx) hv hop hok
          (forEachBound ⟨ox, oy⟩ width height) 1 [ScanParams.octantBase v] e3
          (le_refl 1) (by omega) he3 (ox - (ox - cx)) (cy - oy) hdi (by omega)
          (le_min_iff.mpr ⟨by omega, by show cy - oy ≤ height - oy - 1; omega⟩) (by omega)
          (by show ((cy - oy) != 0) = true; simp only [bne_iff_ne]; omega)
          (by show inRange (((LeftBottom height).makeCoord ⟨ox, oy⟩ (cy - oy)
                (ox - (ox - cx))).sub ⟨ox, oy⟩) = true
              rw [hcoord]; exact hir)
        have happ2 : (⟨(LeftBottom height).makeCoord ⟨ox, oy⟩ (cy - oy) (ox - (ox - cx)),
            DirectionBitmap.all, v⟩ : Emit) ∈ e3 := happ
        rw [hcoord] at happ2
        exact hm3 _ happ2
    · -- down-left or straight down, depth-dominant: BottomLeft (second of pair 3)
        have hok := octantOk_BottomLeft
          ⟨⟨ox, oy⟩, inRange, opacity, width, height, v⟩ (cy - oy) hc1 hc2 hc3
          (by show cy - oy ≤ height - oy - 1; omega)
        have hdi : (BottomLeft height).depthIndex (⟨ox, oy⟩ : Coord) (cy - oy) =
            some (oy + (cy - oy)) := by
          show (if oy + (cy - oy) < height then some (oy + (cy - oy)) else none) =
            some (oy + (cy - oy))
          rw [if_pos (by omega)]
        have hcoord : (BottomLeft height).makeCoord (⟨ox, oy⟩ : Coord) (ox - cx) (oy + (cy - oy)) =
            (⟨cx, cy⟩ : Coord) := by
          show (⟨ox - (ox - cx), oy + (cy - oy)⟩ : Coord) = ⟨cx, cy⟩
          simp only [Coord.mk.injEq]
          omega
        have happ := observeLoop_transparent_emitB (LeftBottom height) (BottomLeft height)
          ⟨⟨ox, oy⟩, inRange, opacity, width, height, v⟩ v (cy - oy) hv hop hok
          (forEachBound ⟨ox, oy⟩ width height) 1 [ScanParams.octantBase v] e3
          (le_refl 1) (by omega) he3 (oy + (cy - oy)) (ox - cx) hdi (by omega)
          (le_min_iff.mpr ⟨by omega, by show ox - cx ≤ ox; omega⟩) (by omega)
          rfl
          (by show inRange (((BottomLeft height).makeCoord ⟨ox, oy⟩ (ox - cx)
                (oy + (cy - oy))).sub ⟨ox, oy⟩) = true
              rw [hcoord]; exact hir)
        have happ2 : (⟨(BottomLeft height).makeCoord ⟨ox, oy⟩ (ox - cx) (oy + (cy - oy)),
            DirectionBitmap.all, v⟩ : Emit) ∈ e3 := happ
        rw [hcoord] at happ2
        exact hm3 _ happ2
    · rcases lt_trichotomy (cx - ox) (cy - oy) with hd | hd | hd
      · -- down-right, depth-dominant: BottomRight (first of pair 4)
        have hok := octantOk_BottomRight
          ⟨⟨ox, oy⟩, inRange, opacity, width, height, v⟩ (cy - oy) hc1 hc2 hc3
          (by show cy - oy ≤ height - oy - 1; omega)
        have hdi : (BottomRight width height).depthIndex (⟨ox, oy⟩ : Coord) (cy - oy) =
            some (oy + (cy - oy)) := by
          show (if oy + (cy - oy) < height then some (oy + (cy - oy)) else none) =
            some (oy + (cy - oy))
          rw [if_pos (by omega)]
        have hcoord : (BottomRight width height).makeCoord (⟨ox, oy⟩ : Coord) (cx - ox) (oy + (cy - oy)) =
            (⟨cx, cy⟩ : Coord) := by
          show (⟨ox + (cx - ox), oy + (cy - oy)⟩ : Coord) = ⟨cx, cy⟩
          simp only [Coord.mk.injEq]
          omega
        have happ := observeLoop_transparent_emitA (BottomRight width height) (RightBottom width height)
          ⟨⟨ox, oy⟩, inRange, opacity, width, height, v⟩ v (cy - oy) hv hop hok
          (forEachBound ⟨ox, oy⟩ width height) 1 [ScanParams.octantBase v] e4
          (le_refl 1) (by omega) he4 (oy + (cy - oy)) (cx - ox) hdi (by omega)
          (le_min_iff.mpr ⟨by omega, by show cx - ox ≤ width - ox - 1; omega⟩) (by omega)
          (by show ((cx - ox) != 0) = true; simp only [bne_iff_ne]; omega)
          (by show inRange (((BottomRight width height).makeCoord ⟨ox, oy⟩ (cx - ox)
                (oy + (cy - oy))).sub ⟨ox, oy⟩) = true
              rw [hcoord]; exact hir)
        have happ2 : (⟨(BottomRight width height).makeCoord ⟨ox, oy⟩ (cx - ox) (oy + (cy - oy)),
            DirectionBitmap.all, v⟩ : Emit) ∈ e4 := happ
        rw [hcoord] at happ2
        exact hm4 _ happ2
      · -- down-right diagonal: corner of pair 4
        have hokA := octantOk_BottomRight
          ⟨⟨ox, oy⟩, inRange, opacity, width, height, v⟩ (cy - oy) hc1 hc2 hc3
          (by show cy - oy ≤ height - oy - 1; omega)
        have hokB := octantOk_RightBottom
          ⟨⟨ox, oy⟩, inRange, opacity, width, height, v⟩ (cy - oy) hc3 hc4 hc1
          (by show cy - oy ≤ width - ox - 1; omega)
        have hdiA : (BottomRight width height).depthIndex (⟨ox, oy⟩ : Coord) (cy - oy) =
            some (oy + (cy - oy)) := by
          show (if oy + (cy - oy) < height then some (oy + (cy - oy)) else none) =
            some (oy + (cy - oy))
          rw [if_pos (by omega)]
        have hdiB : (RightBottom width height).depthIndex (⟨ox, oy⟩ : Coord) (cy - oy) =
            some (ox + (cy - oy)) := by
          show (if ox + (cy - oy) < width then some (ox + (cy - oy)) else none) =
            some (ox + (cy - oy))
          rw [if_pos (by omega)]
        have hcc2 : (BottomRight width height).makeCoord (⟨ox, oy⟩ : Coord) (cy - oy) (oy + (cy - oy)) =
            (RightBottom width height).makeCoord (⟨ox, oy⟩ : Coord) (cy - oy) (ox + (cy - oy)) := by
          show (⟨ox + (cy - oy), oy + (cy - oy)⟩ : Coord) = ⟨ox + (cy - oy), oy + (cy - oy)⟩
          rfl
        have hcoord : (BottomRight width height).makeCoord (⟨ox, oy⟩ : Coord) (cy - oy) (oy + (cy - oy)) =
            (⟨cx, cy⟩ : Coord) := by
          show (⟨ox + (cy - oy), oy + (cy - oy)⟩ : Coord) = ⟨cx, cy⟩
          simp only [Coord.mk.injEq]
          omega
        have happ := observeLoop_transparent_corner (BottomRight width height) (RightBottom width height)
          ⟨⟨ox, oy⟩, inRange, opacity, width, height, v⟩ v (cy - oy) hv hop hokA hokB
          (by show cy - oy ≤ width - ox - 1; omega) (by show cy - oy ≤ height - oy - 1; omega)
          (forEachBound ⟨ox, oy⟩ width height) 1 e4 (le_refl 1) (by omega) he4
          (oy + (cy - oy)) (ox + (cy - oy)) hdiA hdiB hcc2
          (by show inRange (((BottomRight width height).makeCoord ⟨ox, oy⟩ (cy - oy)
                (oy + (cy - oy))).sub ⟨ox, oy⟩) = true
              rw [hcoord]; exact hir)
        have happ2 : (⟨(BottomRight width height).makeCoord ⟨ox, oy⟩ (cy - oy) (oy + (cy - oy)),
            DirectionBitmap.all, v⟩ : Emit) ∈ e4 := happ
        rw [hcoord] at happ2
        exact hm4 _ happ2
      · -- straight right or down-right lateral-dominant: RightBottom (second of pair 4)
        have hok := octantOk_RightBottom
          ⟨⟨ox, oy⟩, inRange, opacity, width, height, v⟩ (cx - ox) hc3 hc4 hc1
          (by show cx - ox ≤ width - ox - 1; omega)
        have hdi : (RightBottom width height).depthIndex (⟨ox, oy⟩ : Coord) (cx - ox) =
            some (ox + (cx - ox)) := by
          show (if ox + (cx - ox) < width then some (ox + (cx - ox)) else none) =
            some (ox + (cx - ox))
          rw [if_pos (by omega)]
        have hcoord : (RightBottom width height).makeCoord (⟨ox, oy⟩ : Coord) (cy - oy) (ox + (cx - ox)) =
            (⟨cx, cy⟩ : Coord) := by
          show (⟨ox + (cx - ox), oy + (cy - oy)⟩ : Coord) = ⟨cx, cy⟩
          simp only [Coord.mk.injEq]
          omega
        have happ := observeLoop_transparent_emitB (BottomRight width height) (RightBottom width height)
          ⟨⟨ox, oy⟩, inRange, opacity, width, height, v⟩ v (cx - ox) hv hop hok
          (forEachBound ⟨ox, oy⟩ width height) 1 [ScanParams.octantBase v] e4
          (le_refl 1) (by omega) he4 (ox + (cx - ox)) (cy - oy) hdi (by omega)
          (le_min_iff.mpr ⟨by omega, by show cy - oy ≤ height - oy - 1; omega⟩) (by omega)
          rfl
          (by show inRange (((RightBottom width height).makeCoord ⟨ox, oy⟩ (cy - oy)
                (ox + (cx - ox))).sub ⟨ox, oy⟩) = true
              rw [hcoord]; exact hir)
        have happ2 : (⟨(RightBottom width height).makeCoord ⟨ox, oy⟩ (cy - oy) (ox + (cx - ox)),
            DirectionBitmap.all, v⟩ : Emit) ∈ e4 := happ
        rw [hcoord] at happ2
        exact hm4 _ happ2

/-! ## The claims

Each claim of the specification is settled by one theorem below, over the
definitions above. -/

/-! ### Concrete instances used by the claim theorems -/

/-- A 4-by-4 grid with opaque walls at `(0, 0)` and `(1, 0)` and every other
cell transparent. -/
def cxOpacity : Coord → Int :=
  fun c => if c = ⟨0, 0⟩ ∨ c = ⟨1, 0⟩ then 255 else 0

/-- The sink invocations with the eye at `(0, 1)` on the wall grid. -/
def cxEmitsA : List Emit := forEachEmits ⟨0, 1⟩ 4 4 cxOpacity (squareInRange 100) 255

/-- The sink invocations with the eye at `(2, 0)` on the wall grid. -/
def cxEmitsC : List Emit := forEachEmits ⟨2, 0⟩ 4 4 cxOpacity (squareInRange 100) 255

/-- A transparent 3-by-3 grid observed from its middle, with every delta in
range. -/
def witnessParams : StaticParams :=
  ⟨⟨1, 1⟩, fun _ => true, fun _ => 0, 3, 3, 255⟩

/-- The opacity grid of the transparency scenario as the specification
intends it: an 11-by-25 grid, transparent except for a column of
half-opaque (128) cells at `x = 8` from row 9 down. -/
def transparencyOpacity : Coord → Int :=
  fun c => if c.x = 8 ∧ 9 ≤ c.y ∧ c.y ≤ 24 then 128 else 0

/-- The sink invocations of the transparency scenario: eye at `(5, 4)`,
vision distance `Circle(100)`, initial visibility 255. -/
def transparencyEmits : List Emit :=
  forEachEmits ⟨5, 4⟩ 11 25 transparencyOpacity (circleInRange 100) 255

/-- The sink invocations of the empty 11-by-9 scenario with the eye at
`(5, 4)`, for comparison with the top block of the transparency scenario. -/
def emptyEmits : List Emit :=
  forEachEmits ⟨5, 4⟩ 11 9 (fun _ => 0) (circleInRange 100) 255

/-- The direction bitmap a cell ends up with in the test's output grid:
each sink invocation overwrites the cell, so the last one wins; `none`
means the cell was never reported. -/
def lastReport (emits : List Emit) (c : Coord) : Option DirectionBitmap :=
  ((emits.filter (fun e => e.coord == c)).getLast?).map (fun e => e.bitmap)

/-- The amended transparency-scenario facts as one boolean check: the
9-row top block is reported exactly as in the empty 11-by-9 case, every
cell of the half-opaque column is reported with the full bitmap, and the
cells right of the column's lower part are in shadow. -/
def c9Check : Bool :=
  let t := transparencyEmits
  let e := emptyEmits
  ((List.range 9).all (fun y => (List.range 11).all (fun x =>
      lastReport t ⟨(x : Int), (y : Int)⟩ == lastReport e ⟨(x : Int), (y : Int)⟩))) &&
  ((List.range 16).all (fun i =>
      lastReport t ⟨8, 9 + (i : Int)⟩ == some DirectionBitmap.all)) &&
  (lastReport t ⟨9, 14⟩ == none) && (lastReport t ⟨10, 14⟩ == none)

/-! ### C1 -/

/-- Claim C1 is false as stated: visibility is not symmetric for every
grid of opacities.  On the 4-by-4 grid with opaque walls at `(0, 0)` and
`(1, 0)` (square vision distance 100, initial visibility 255), `for_each`
with the eye at `(0, 1)` invokes the sink on `(2, 0)`, but `for_each` with
the eye at `(2, 0)` never invokes the sink on `(0, 1)`. -/
theorem c1_symmetry_counterexample :
    (cxEmitsA.any (fun e => e.coord == ⟨2, 0⟩)) = true ∧
    (cxEmitsC.any (fun e => e.coord == ⟨0, 1⟩)) = false := by
  exact ⟨by decide, by decide⟩

/-- Claim C1, amended: on a fully transparent grid with positive initial
visibility and a negation-symmetric `in_range`, visibility is symmetric —
if `for_each` with the eye at `centre` invokes the sink on the in-bounds
cell `c`, then `for_each` with the eye at `c` invokes the sink on `centre`
(indeed with the full bitmap and undiminished visibility). -/
theorem c1_symmetry_transparent (centre c : Coord) (width height : Int)
    (opacity : Coord → Int) (inRange : Coord → Bool) (v : Int)
    (bm : DirectionBitmap) (vis : Int)
    (hop : ∀ d, opacity d = 0) (hv : 0 < v)
    (hsym : ∀ d : Coord, inRange ⟨-d.x, -d.y⟩ = inRange d)
    (hcx1 : 0 ≤ centre.x) (hcx2 : centre.x < width)
    (hcy1 : 0 ≤ centre.y) (hcy2 : centre.y < height)
    (hx1 : 0 ≤ c.x) (hx2 : c.x < width) (hy1 : 0 ≤ c.y) (hy2 : c.y < height)
    (hmem : (⟨c, bm, vis⟩ : Emit) ∈ forEachEmits centre width height opacity inRange v) :
    (⟨centre, DirectionBitmap.all, v⟩ : Emit) ∈
      forEachEmits c width height opacity inRange v := by
  obtain ⟨rest, heq, hall⟩ :=
    forEachEmits_cons_inRange centre width height opacity inRange v
  rw [heq] at hmem
  rcases List.mem_cons.mp hmem with hmem | hmem
  · have hc : c = centre := congrArg Emit.coord hmem
    subst hc
    rw [heq]
    exact List.mem_cons_self _ _
  · have hir : inRange (c.sub centre) = true := hall _ hmem
    have hneg : centre.sub c = (⟨-((c.sub centre).x), -((c.sub centre).y)⟩ : Coord) := by
      simp only [Coord.sub, Coord.mk.injEq]
      omega
    have hir2 : inRange (centre.sub c) = true := by
      rw [hneg, hsym (c.sub centre)]
      exact hir
    exact forEach_transparent_complete c width height opacity inRange v hop hv
      hx1 hx2 hy1 hy2 centre hcx1 hcx2 hcy1 hcy2 hir2

theorem c1_symmetry_transparent_witness :
    (⟨⟨1, 1⟩, DirectionBitmap.all, 255⟩ : Emit) ∈
      forEachEmits ⟨0, 0⟩ 2 2 (fun _ => 0) (fun _ => true) 255 :=
  c1_symmetry_transparent ⟨1, 1⟩ ⟨0, 0⟩ 2 2 (fun _ => 0) (fun _ => true) 255
    DirectionBitmap.all 255 (fun _ => rfl) (by decide) (fun _ => rfl)
    (by decide) (by decide) (by decide) (by decide)
    (by decide) (by decide) (by decide) (by decide) (by decide)

/-! ### C2 -/

/-- Claim C2: diagonal reconciliation.  The base interval of every octant
is well formed and `scan` preserves well-formedness; for every octant used
by `for_each`, `scan` never passes the diagonal cell (`lateral_index ==
depth`) of its strip to the sink; instead the corner `scan` returns is in
range, carries the interval's visibility, and sits at the diagonal cell;
the driver round invokes the sink at most once for the corner — after both
queues' own invocations — with the coordinate, the reconciled union of the
corner bitmaps folded over both octants' scans and the maximum of their
visibilities; the fold computes exactly that union and maximum; and the
reconciliation masks the union with `all_cardinal` exactly when it is
neither full nor disjoint from the cardinal directions. -/
theorem c2_diagonal_reconciliation :
    (∀ v : Int, goodParams (ScanParams.octantBase v)) ∧
    (∀ (octant : Octant) (sp : StaticParams) (p : ScanParams), goodParams p →
      ∀ q ∈ (scan octant sp p).1, goodParams q) ∧
    (∀ (width height : Int), ∀ octant ∈ pairOctants width height,
      ∀ (sp : StaticParams) (p : ScanParams), goodParams p →
      ∀ di, octant.depthIndex sp.centre p.depth = some di →
      ∀ e ∈ (scan octant sp p).2.1,
        e.coord ≠ octant.makeCoord sp.centre p.depth di) ∧
    (∀ (octant : Octant) (sp : StaticParams) (p : ScanParams) (ci : CornerInfo),
      (scan octant sp p).2.2 = some ci →
      sp.inRange (ci.coord.sub sp.centre) = true ∧ ci.visibility = p.visibility ∧
      ∃ di, octant.depthIndex sp.centre p.depth = some di ∧
        ci.coord = octant.makeCoord sp.centre p.depth di) ∧
    (∀ (octA octB : Octant) (sp : StaticParams) (queueA queueB : List ScanParams),
      (observeRound octA octB sp queueA queueB).2.2 =
        (runQueue octA sp queueA ⟨DirectionBitmap.empty, none, 0⟩).2.1 ++
        (runQueue octB sp queueB
          (runQueue octA sp queueA ⟨DirectionBitmap.empty, none, 0⟩).2.2).2.1 ++
        (match ((scanCorners octA sp queueA ++ scanCorners octB sp queueB).foldl
            cornerFold ⟨DirectionBitmap.empty, none, 0⟩).coord with
         | none => []
         | some cc =>
           [⟨cc,
             reconcile ((scanCorners octA sp queueA ++
               scanCorners octB sp queueB).foldl cornerFold
                 ⟨DirectionBitmap.empty, none, 0⟩).bitmap,
             ((scanCorners octA sp queueA ++ scanCorners octB sp queueB).foldl
               cornerFold ⟨DirectionBitmap.empty, none, 0⟩).visibility⟩])) ∧
    (∀ (cs : List CornerInfo) (acc : CornerAcc),
      (cs.foldl cornerFold acc).bitmap =
        cs.foldl (fun b ci => b.or ci.bitmap) acc.bitmap ∧
      (cs.foldl cornerFold acc).visibility =
        cs.foldl (fun m ci => max m ci.visibility) acc.visibility) ∧
    (∀ bm : DirectionBitmap, reconcile bm =
      if bm.isFull = true ∨ (bm.and DirectionBitmap.allCardinal).isEmpty = true
      then bm else bm.and DirectionBitmap.allCardinal) := by
  refine ⟨fun v => by simp [goodParams, ScanParams.octantBase],
    fun octant sp p hp q hq => (scan_pushes_mem octant sp p hp q hq).1,
    fun width height octant hoct sp p hp di hdi e he =>
      scan_emits_avoid_diag octant sp p hp di hdi
        (fun j j' => pairOctants_makeCoord_inj width height octant hoct
          sp.centre di j j') e he,
    fun octant sp p ci hci => (scan_emits_mem octant sp p).2 ci hci,
    observeRound_corner_emit,
    fun cs acc => foldl_cornerFold_union_max cs acc,
    reconcile_spec⟩

theorem c2_diagonal_reconciliation_witness :
    goodParams (ScanParams.octantBase 255) ∧
    (⟨⟨0, 1⟩, DirectionBitmap.all, 255⟩ : Emit).coord ≠
      LeftTop.makeCoord witnessParams.centre (ScanParams.octantBase 255).depth 0 ∧
    reconcile DirectionBitmap.all = DirectionBitmap.all :=
  ⟨c2_diagonal_reconciliation.1 255,
   c2_diagonal_reconciliation.2.2.1 3 3 LeftTop (by simp [pairOctants])
     witnessParams (ScanParams.octantBase 255) (by decide) 0 (by decide)
     ⟨⟨0, 1⟩, DirectionBitmap.all, 255⟩ (by decide),
   by rw [c2_diagonal_reconciliation.2.2.2.2.2.2 DirectionBitmap.all]; decide⟩

/-! ### C3 -/

/-- Claim C3: with `effective_depth = 2 * depth`, `scan` computes the first
lateral index as `(min_gradient.depth + min_gradient.lateral *
effective_depth) tdiv (min_gradient.depth * 2)` plus 1 when
`min_inclusive` is false, and the last lateral index as
`(max_gradient.depth + max_gradient.lateral * effective_depth - 1) tdiv
(max_gradient.depth * 2)`, both by truncated integer division, the last
clamped to `octant.lateral_max(origin)`. -/
theorem c3_lateral_bounds (octant : Octant) (origin : Coord) (params : ScanParams) :
    scanBounds octant origin params =
      (Int.tdiv (params.minGradient.depth +
          params.minGradient.lateral * (2 * params.depth))
          (params.minGradient.depth * 2) +
        (if params.minInclusive then 0 else 1),
       min (Int.tdiv (params.maxGradient.depth +
            params.maxGradient.lateral * (2 * params.depth) - 1)
          (params.maxGradient.depth * 2))
        (octant.lateralMax origin)) := by
  unfold scanBounds scanLateralMin scanLateralMaxRaw
  rw [mul_comm params.depth 2]

theorem c3_lateral_bounds_witness :
    scanBounds LeftTop ⟨5, 5⟩ ⟨⟨1, 3⟩, ⟨2, 3⟩, false, 4, 100⟩ =
      (Int.tdiv (3 + 1 * (2 * 4)) (3 * 2) + 1,
       min (Int.tdiv (3 + 2 * (2 * 4) - 1) (3 * 2)) 5) := by
  rw [c3_lateral_bounds LeftTop ⟨5, 5⟩ ⟨⟨1, 3⟩, ⟨2, 3⟩, false, 4, 100⟩]
  decide

/-! ### C4 -/

/-- Claim C4: the saturation guard.  The subtraction `visibility -
opacity` happens only under `opacity < visibility`; when `visibility ≤
opacity` the outgoing visibility is zero and the cell is treated as
opaque; the outgoing visibility is never negative; and every interval
`scan` pushes keeps a positive visibility budget. -/
theorem c4_saturation_guard :
    (∀ v o : Int, o < v → stepVisibility v o = (v - o, false)) ∧
    (∀ v o : Int, v ≤ o → stepVisibility v o = (0, true)) ∧
    (∀ v o : Int, 0 ≤ (stepVisibility v o).1) ∧
    (∀ (octant : Octant) (sp : StaticParams) (p : ScanParams),
      ∀ q ∈ (scan octant sp p).1, 0 < q.visibility) :=
  ⟨fun v o h => by unfold stepVisibility; rw [if_pos h],
   fun v o h => by unfold stepVisibility; rw [if_neg (by omega)],
   stepVisibility_nonneg,
   fun octant sp p => scan_pushes_pos octant sp p⟩

theorem c4_saturation_guard_witness :
    stepVisibility 255 128 = (127, false) ∧
    stepVisibility 100 255 = (0, true) ∧
    0 ≤ (stepVisibility 3 7).1 ∧
    0 < (⟨⟨0, 1⟩, ⟨1, 1⟩, true, 2, 255⟩ : ScanParams).visibility :=
  ⟨c4_saturation_guard.1 255 128 (by decide),
   c4_saturation_guard.2.1 100 255 (by decide),
   c4_saturation_guard.2.2.1 3 7,
   c4_saturation_guard.2.2.2 LeftTop witnessParams (ScanParams.octantBase 255)
     ⟨⟨0, 1⟩, ⟨1, 1⟩, true, 2, 255⟩ (by decide)⟩

/-! ### C5 -/

/-- Claim C5: the mature final-cell rule.  The pushes of one `scan`
iteration never depend on whether the cell is in vision range; and at the
last cell of a strip (`lateral_index == lateral_max`) the iteration
pushes, beyond any step-7 transition push, exactly the continuation
interval `{min_gradient, max_gradient, min_inclusive, depth + 1,
cur_visibility}` (with the step-7-updated `min_gradient` and
`min_inclusive`), and it does so precisely when the cell is transparent
and `min_gradient` differs from `max_gradient` under cross-multiplication
equality. -/
theorem c5_final_cell_rule :
    (∀ (octant : Octant) (maxGradient : Gradient)
       (depth lateralMin lateralMax visibility : Int) (minGradient : Gradient)
       (minInclusive : Bool) (prevVisibility : Int) (prevOpaque : Bool)
       (lateralIndex : Int) (coord : Coord) (opacity : Int) (inR1 inR2 : Bool),
      (scanCell octant maxGradient depth lateralMin lateralMax visibility minGradient
          minInclusive prevVisibility prevOpaque lateralIndex coord opacity
          inR1).pushes =
      (scanCell octant maxGradient depth lateralMin lateralMax visibility minGradient
          minInclusive prevVisibility prevOpaque lateralIndex coord opacity
          inR2).pushes) ∧
    (∀ (octant : Octant) (maxGradient : Gradient)
       (depth lateralMin lateralMax visibility : Int) (minGradient : Gradient)
       (minInclusive : Bool) (prevVisibility : Int) (prevOpaque : Bool)
       (coord : Coord) (opacity : Int) (inRange : Bool),
      (scanCell octant maxGradient depth lateralMin lateralMax visibility minGradient
          minInclusive prevVisibility prevOpaque lateralMax coord opacity
          inRange).pushes =
        (transitionStep octant.acrossBitmap depth lateralMin lateralMax minGradient
            minInclusive prevVisibility prevOpaque
            (stepVisibility visibility opacity).1).1 ++
        (if (stepVisibility visibility opacity).2 = false ∧
            gradEq (transitionStep octant.acrossBitmap depth lateralMin lateralMax
              minGradient minInclusive prevVisibility prevOpaque
              (stepVisibility visibility opacity).1).2.1 maxGradient = false then
          [⟨(transitionStep octant.acrossBitmap depth lateralMin lateralMax minGradient
              minInclusive prevVisibility prevOpaque
              (stepVisibility visibility opacity).1).2.1, maxGradient,
            (transitionStep octant.acrossBitmap depth lateralMin lateralMax minGradient
              minInclusive prevVisibility prevOpaque
              (stepVisibility visibility opacity).1).2.2.1, depth + 1,
            (stepVisibility visibility opacity).1⟩]
        else [])) := by
  constructor
  · intro octant maxGradient depth lateralMin lateralMax visibility minGradient
      minInclusive prevVisibility prevOpaque lateralIndex coord opacity inR1 inR2
    rw [scanCell_pushes_eq, scanCell_pushes_eq]
  · intro octant maxGradient depth lateralMin lateralMax visibility minGradient
      minInclusive prevVisibility prevOpaque coord opacity inRange
    rw [scanCell_pushes_eq]
    simp only [beq_self_eq_true, if_true]
    congr 1
    cases h1 : (stepVisibility visibility opacity).2 <;>
      cases h2 : gradEq (transitionStep octant.acrossBitmap depth lateralMin lateralMax
          minGradient minInclusive prevVisibility prevOpaque
          (stepVisibility visibility opacity).1).2.1 maxGradient <;>
      simp [h1, h2]

theorem c5_final_cell_rule_witness :
    (scanCell LeftTop ⟨1, 1⟩ 1 0 1 255 ⟨0, 1⟩ true 255 false 1 ⟨0, 0⟩ 0 true).pushes =
      (transitionStep LeftTop.acrossBitmap 1 0 1 ⟨0, 1⟩ true 255 false
          (stepVisibility 255 0).1).1 ++
      (if (stepVisibility 255 0).2 = false ∧
          gradEq (transitionStep LeftTop.acrossBitmap 1 0 1 ⟨0, 1⟩ true 255 false
            (stepVisibility 255 0).1).2.1 ⟨1, 1⟩ = false then
        [⟨(transitionStep LeftTop.acrossBitmap 1 0 1 ⟨0, 1⟩ true 255 false
            (stepVisibility 255 0).1).2.1, ⟨1, 1⟩,
          (transitionStep LeftTop.acrossBitmap 1 0 1 ⟨0, 1⟩ true 255 false
            (stepVisibility 255 0).1).2.2.1, 1 + 1,
          (stepVisibility 255 0).1⟩]
      else []) :=
  c5_final_cell_rule.2 LeftTop ⟨1, 1⟩ 1 0 1 255 ⟨0, 1⟩ true 255 false ⟨0, 0⟩ 0 true

/-! ### C6 -/

/-- Claim C6: range restriction.  Every sink invocation of `for_each`
other than the leading one for the origin cell is at a coordinate whose
delta from the origin satisfies `in_range`. -/
theorem c6_range_restriction (centre : Coord) (width height : Int)
    (opacity : Coord → Int) (inRange : Coord → Bool) (initialVisibility : Int) :
    ∃ rest, forEachEmits centre width height opacity inRange initialVisibility =
      ⟨centre, DirectionBitmap.all, initialVisibility⟩ :: rest ∧
      ∀ e ∈ rest, inRange (e.coord.sub centre) = true :=
  forEachEmits_cons_inRange centre width height opacity inRange initialVisibility

theorem c6_range_restriction_witness :
    (forEachEmits ⟨1, 1⟩ 3 3 (fun _ => 0) (squareInRange 1) 255).head? =
      some ⟨⟨1, 1⟩, DirectionBitmap.all, 255⟩ := by
  obtain ⟨rest, heq, -⟩ :=
    c6_range_restriction ⟨1, 1⟩ 3 3 (fun _ => 0) (squareInRange 1) 255
  rw [heq]
  rfl

/-! ### C7 -/

/-- Claim C7: origin first.  For every input — whatever the origin cell's
own opacity or the vision distance — the first sink invocation of
`for_each` is exactly `(origin, DirectionBitmap::all, initial_visibility)`. -/
theorem c7_origin_first (centre : Coord) (width height : Int)
    (opacity : Coord → Int) (inRange : Coord → Bool) (initialVisibility : Int) :
    (forEachEmits centre width height opacity inRange initialVisibility).head? =
      some ⟨centre, DirectionBitmap.all, initialVisibility⟩ := by
  obtain ⟨rest, heq, -⟩ :=
    forEachEmits_cons_inRange centre width height opacity inRange initialVisibility
  rw [heq]
  rfl

theorem c7_origin_first_witness :
    (forEachEmits ⟨0, 0⟩ 1 1 (fun _ => 255) (fun _ => false) 7).head? =
      some ⟨⟨0, 0⟩, DirectionBitmap.all, 7⟩ :=
  c7_origin_first ⟨0, 0⟩ 1 1 (fun _ => 255) (fun _ => false) 7

/-! ### C8 -/

/-- Claim C8: termination.  For every finite grid, origin, `in_range`
predicate and initial visibility, `for_each` terminates: its fuelled
embedding returns a result within the explicit per-grid fuel bound. -/
theorem c8_termination (centre : Coord) (width height : Int)
    (opacity : Coord → Int) (inRange : Coord → Bool) (initialVisibility : Int) :
    (forEach centre width height opacity inRange initialVisibility).isSome = true := by
  obtain ⟨e1, e2, e3, e4, -, -, -, -, heq⟩ :=
    forEach_parts centre width height opacity inRange initialVisibility
  rw [heq]
  rfl

theorem c8_termination_witness :
    (forEach ⟨2, 3⟩ 7 5 (fun _ => 9) (circleInRange 2) 100).isSome = true :=
  c8_termination ⟨2, 3⟩ 7 5 (fun _ => 9) (circleInRange 2) 100

/-! ### C9 -/

set_option maxRecDepth 10000 in
/-- Claim C9 is false as stated: the transparency-column scenario does not
report only the first half-opaque cell of the column.  The cell
`(8, 24)` — the last of the sixteen half-opaque cells — is still reported,
with the full direction bitmap and the undiminished visibility 255. -/
theorem c9_transparency_counterexample :
    (lastReport transparencyEmits ⟨8, 24⟩ == some DirectionBitmap.all &&
     transparencyEmits.any (fun e => e.coord == ⟨8, 24⟩ &&
       e.visibility == 255)) = true := by decide

set_option maxRecDepth 10000 in
/-- Claim C9, amended: in the transparency-column scenario the 9-row top
block is reported exactly as in the empty 11-by-9 case; but every one of
the sixteen half-opaque cells at `x = 8` is reported with the full bitmap
(not just the first), and the shadow falls on the cells beyond the column
instead, such as `(9, 14)` and `(10, 14)`. -/
theorem c9_transparency_amended : c9Check = true := by decide

/-! ### C10 -/

/-- Claim C10: the visibility passed to the sink for every cell reported
from inside `scan`, and carried in the `CornerInfo` `scan` returns, is the
interval's incoming `params.visibility` unchanged — attenuation shows up
only in the intervals pushed for the next depth. -/
theorem c10_sink_visibility (octant : Octant) (sp : StaticParams)
    (params : ScanParams) :
    (∀ e ∈ (scan octant sp params).2.1, e.visibility = params.visibility) ∧
    (∀ ci, (scan octant sp params).2.2 = some ci →
      ci.visibility = params.visibility) :=
  ⟨fun e he => ((scan_emits_mem octant sp params).1 e he).2,
   fun ci hci => ((scan_emits_mem octant sp params).2 ci hci).2.1⟩

theorem c10_sink_visibility_witness :
    (⟨⟨0, 1⟩, DirectionBitmap.all, 255⟩ : Emit).visibility =
      (ScanParams.octantBase 255).visibility :=
  (c10_sink_visibility LeftTop witnessParams (ScanParams.octantBase 255)).1
    ⟨⟨0, 1⟩, DirectionBitmap.all, 255⟩ (by decide)

end Shadowcast
